import Mathlib

/-!
Verification development for the EPUB parsing core of the bookParse
repository: the `EPUBParser` class (validation, metadata, cover and
table-of-contents extraction) and the `ChapterSplitter` class (chapter
splitting, part aggregation, statistics).

The TypeScript source is embedded shallowly:

* Strings are Lean `String`s; all string manipulation (the regex-based
  HTML processing of the source) is implemented over the character list
  `String.data` so every definition evaluates inside the kernel.
* The external archive library (JSZip) is modelled by `Archive`, a finite
  map from entry path to entry; the external XML parser (xml2js) is
  modelled by pre-parsed document values attached to archive entries
  (`containerParse`, `opfParse`, `ncxParse` fields); the external image
  library (sharp) is modelled by an explicit encoding function argument.
* `uuidv4()` id generation is modelled by a deterministic counter threaded
  through the functions that generate TocItem ids; ids are `Nat`.
* TypeScript `undefined` for the optional `$`-attributes that the source
  reads with `?.` and compares with `===`/`||` is modelled by the empty
  string, which is behaviour-preserving for every use in the source.
-/

/-! ### JS-style string helpers over `String.data` -/

/-- Whitespace test matching the ASCII part of the JS `\s` character class. -/
def wsChar (c : Char) : Bool :=
  c = ' ' || c = '\t' || c = '\n' || c = '\r' || c = '\x0b' || c = '\x0c'

/-- Does the first list start with the second? -/
def listStartsWith : List Char → List Char → Bool
  | _, [] => true
  | [], _ :: _ => false
  | a :: as, b :: bs => a = b && listStartsWith as bs

/-- Substring search helper (JS `String.prototype.includes`). -/
def containsAux : List Char → List Char → Bool
  | [], pat => listStartsWith [] pat
  | s@(_ :: rest), pat => listStartsWith s pat || containsAux rest pat

/-- JS `s.includes(pat)` (case sensitive). -/
def containsSub (s pat : String) : Bool :=
  containsAux s.data pat.data

/-- JS `s.toLowerCase()` (ASCII range; CJK characters are unaffected in both). -/
def strLower (s : String) : String :=
  ⟨s.data.map Char.toLower⟩

/-- JS `s.startsWith(pat)`. -/
def strStartsWith (s pat : String) : Bool :=
  listStartsWith s.data pat.data

/-- JS `s.substring(n)`. -/
def strDrop (s : String) (n : Nat) : String :=
  ⟨s.data.drop n⟩

/-- JS `s.substring(0, n)`. -/
def strTake (s : String) (n : Nat) : String :=
  ⟨s.data.take n⟩

/-- JS `s.trim()` (ASCII whitespace). -/
def strTrim (s : String) : String :=
  ⟨((s.data.dropWhile wsChar).reverse.dropWhile wsChar).reverse⟩

/-- JS `s.split('#')[0]`: the prefix before the first `#`. -/
def strUpToHash (s : String) : String :=
  ⟨s.data.takeWhile (· ≠ '#')⟩

/-- Split a character list on `/` (JS `s.split('/')`). -/
def splitSlash : List Char → List (List Char)
  | [] => [[]]
  | c :: rest =>
    match splitSlash rest with
    | [] => [[c]]
    | g :: gs => if c = '/' then [] :: g :: gs else (c :: g) :: gs

/-- Last component of `s.split('/')` (JS `s.split('/').pop()`). -/
def lastSlashComponent (s : String) : String :=
  match (splitSlash s.data).getLast? with
  | some g => ⟨g⟩
  | none => ""

/-- Node `path.dirname` restricted to the relative paths the parser handles:
`"a/b" ↦ "a"`, and a path without `/` maps to `"."`. -/
def pathDirname (p : String) : String :=
  match splitSlash p.data with
  | [] => "."
  | [_] => "."
  | parts => ⟨List.intercalate ['/'] parts.dropLast⟩

/-- Replace every occurrence of a (non-empty) pattern, left to right
(JS `s.replace(/pat/g, rep)` for a literal pattern). -/
def replaceAux : Nat → List Char → List Char → List Char → List Char
  | 0, s, _, _ => s
  | _ + 1, [], _, _ => []
  | f + 1, s@(c :: rest), pat, rep =>
    if pat ≠ [] ∧ listStartsWith s pat then
      rep ++ replaceAux f (s.drop pat.length) pat rep
    else
      c :: replaceAux f rest pat rep

/-- String-level wrapper for `replaceAux`. -/
def strReplace (s pat rep : String) : String :=
  ⟨replaceAux s.data.length s.data pat.data rep.data⟩

/-! ### Scanners for the regular expressions used by the source -/

/-- Match a literal case-insensitively, returning the remaining input. -/
def litCI : List Char → List Char → Option (List Char)
  | cs, [] => some cs
  | [], _ :: _ => none
  | c :: cs, p :: ps => if c.toLower = p.toLower then litCI cs ps else none

/-- Consume `[^>]*>`: skip to just past the next `>`, failing if there is none. -/
def dropTagRest : List Char → Option (List Char)
  | [] => none
  | c :: cs => if c = '>' then some cs else dropTagRest cs

/-- Lazily search for a case-insensitive literal, returning the input just
after its first occurrence (the `[\s\S]*?lit` idiom). -/
def findCloseCI : Nat → List Char → List Char → Option (List Char)
  | 0, _, _ => none
  | _ + 1, _, [] => none
  | f + 1, lit, cs@(_ :: rest) =>
    match litCI cs lit with
    | some rem => some rem
    | none => findCloseCI f lit rest

/-- Remove every `openTag[^>]*>...closeTag` block
(the `<script[^>]*>[\s\S]*?<\/script>` replacement of the source). -/
def stripBlocksAux : Nat → List Char → List Char → List Char → List Char
  | 0, _, _, cs => cs
  | _ + 1, _, _, [] => []
  | f + 1, openTag, closeTag, cs@(c :: rest) =>
    match litCI cs openTag with
    | some a =>
      match dropTagRest a with
      | some b =>
        match findCloseCI b.length closeTag b with
        | some rem => stripBlocksAux f openTag closeTag rem
        | none => c :: stripBlocksAux f openTag closeTag rest
      | none => c :: stripBlocksAux f openTag closeTag rest
    | none => c :: stripBlocksAux f openTag closeTag rest

/-- String-level wrapper for `stripBlocksAux`. -/
def stripBlocks (openTag closeTag s : String) : String :=
  ⟨stripBlocksAux s.data.length openTag.data closeTag.data s.data⟩

/-- The tag names of the block-level closing-tag pattern
`<\/(div|p|h[1-6]|li|section|article)>`. -/
def blockTagNames : List (List Char) :=
  ["div", "p", "h1", "h2", "h3", "h4", "h5", "h6", "li", "section",
   "article"].map String.data

/-- Try each alternative tag name, requiring a closing `>` right after it. -/
def matchAltClose : List (List Char) → List Char → Option (List Char)
  | [], _ => none
  | t :: ts, cs =>
    match litCI cs t with
    | some ('>' :: r) => some r
    | some _ => matchAltClose ts cs
    | none => matchAltClose ts cs

/-- Match `<\/(div|p|h[1-6]|li|section|article)>` at the head of the input. -/
def matchBlockClose (cs : List Char) : Option (List Char) :=
  match litCI cs ['<', '/'] with
  | some cs2 => matchAltClose blockTagNames cs2
  | none => none

/-- Match `<(br|hr)\s*\/?>` at the head of the input. -/
def matchBrHr (cs : List Char) : Option (List Char) :=
  match litCI cs ['<'] with
  | none => none
  | some cs1 =>
    match (match litCI cs1 ['b', 'r'] with
           | some r => some r
           | none => litCI cs1 ['h', 'r']) with
    | none => none
    | some cs2 =>
      match cs2.dropWhile wsChar with
      | '/' :: '>' :: r => some r
      | '>' :: r => some r
      | _ => none

/-- Global scan replacing each match of `m` by a newline. -/
def newlineScanAux (m : List Char → Option (List Char)) :
    Nat → List Char → List Char
  | 0, cs => cs
  | _ + 1, [] => []
  | f + 1, cs@(c :: rest) =>
    match m cs with
    | some rem => '\n' :: newlineScanAux m f rem
    | none => c :: newlineScanAux m f rest

/-- Remove every HTML tag (the `<[^>]+>` replacement): at `<`, skip to the
next `>` provided at least one character lies between. -/
def stripTagsAux : Nat → List Char → List Char
  | 0, cs => cs
  | _ + 1, [] => []
  | f + 1, c :: rest =>
    if c = '<' then
      match rest.dropWhile (· ≠ '>') with
      | '>' :: r =>
        if (rest.takeWhile (· ≠ '>')).isEmpty then c :: stripTagsAux f rest
        else stripTagsAux f r
      | _ => c :: stripTagsAux f rest
    else c :: stripTagsAux f rest

/-- Decode the fixed set of named HTML entities of the source, in order. -/
def htmlEntityDecode (s : String) : String :=
  let s1 := strReplace s "&nbsp;" " "
  let s2 := strReplace s1 "&amp;" "&"
  let s3 := strReplace s2 "&lt;" "<"
  let s4 := strReplace s3 "&gt;" ">"
  let s5 := strReplace s4 "&quot;" "\""
  let s6 := strReplace s5 "&#39;" (String.mk [Char.ofNat 39])
  let s7 := strReplace s6 "&hellip;" "..."
  let s8 := strReplace s7 "&mdash;" "—"
  strReplace s8 "&ndash;" "–"

/-- Collapse runs of whitespace to a single space (`\s+` → `' '`). -/
def collapseWsAux : Nat → List Char → List Char
  | 0, cs => cs
  | _ + 1, [] => []
  | f + 1, c :: rest =>
    if wsChar c then ' ' :: collapseWsAux f (rest.dropWhile wsChar)
    else c :: collapseWsAux f rest

/-- Replace `\n\s*\n` by `\n` globally: a newline whose following whitespace
run contains another newline is merged up to the run's last newline. -/
def collapseNlAux : Nat → List Char → List Char
  | 0, cs => cs
  | _ + 1, [] => []
  | f + 1, c :: rest =>
    if c = '\n' then
      let run := rest.takeWhile wsChar
      let after := rest.dropWhile wsChar
      let revRun := run.reverse
      let tailWs := revRun.takeWhile (· ≠ '\n')
      if revRun.length ≠ tailWs.length then
        '\n' :: collapseNlAux f (tailWs.reverse ++ after)
      else c :: collapseNlAux f rest
    else c :: collapseNlAux f rest

/-- ASCII letter test (the `[a-zA-Z]` class). -/
def isAsciiAlpha (c : Char) : Bool :=
  ('a' ≤ c && c ≤ 'z') || ('A' ≤ c && c ≤ 'Z')

/-- JS word character (the `\w` class used by `\b` boundaries). -/
def jsWordChar (c : Char) : Bool :=
  isAsciiAlpha c || c.isDigit || c = '_'

/-- CJK ideograph test (the `[一-鿿]` class). -/
def cjkChar (c : Char) : Bool :=
  0x4e00 ≤ c.toNat && c.toNat ≤ 0x9fff

/-- Count matches of `\b[a-zA-Z]+\b`: maximal ASCII-letter runs whose
neighbours are not word characters.  `prevWord` records whether the
character before the current position is a word character. -/
def countEngAux : Nat → Bool → List Char → Nat
  | 0, _, _ => 0
  | _ + 1, _, [] => 0
  | f + 1, prevWord, c :: rest =>
    if isAsciiAlpha c && !prevWord then
      let after := rest.dropWhile isAsciiAlpha
      (match after with
       | [] => 1
       | d :: _ => if jsWordChar d then 0 else 1) + countEngAux f true after
    else countEngAux f (jsWordChar c) rest

/-! ### Data model (src/api/types/book.types.ts) -/

/-- Table-of-contents entry.  `id`/`parent_id` are the `uuidv4()` strings of
the source, modelled as counter-generated naturals. -/
structure TocItem where
  id : Nat
  title : String
  level : Nat
  href : String
  parent_id : Option Nat
deriving DecidableEq, Repr

/-- Chapter produced by the splitter. -/
structure ChapterContent where
  index : Nat
  title : String
  content : String
  wordCount : Nat
  level : Nat
deriving DecidableEq, Repr

/-- Book metadata record. -/
structure BookInfo where
  title : String
  author : String
  translator : String
  publisher : String
  isbn : String
  publication_date : String
  language : String
deriving DecidableEq, Repr

/-- Cover extraction result. -/
structure CoverInfo where
  cover_image : String
  cover_alt_text : String
deriving DecidableEq, Repr

/-! ### Archive model (JSZip) and pre-parsed XML documents (xml2js) -/

/-- Nested navigation point of an NCX navigation map: label text
(`navLabel[0].text[0]`), content source (`content[0].$.src`, absent
modelled as `none`), and child navigation points. -/
inductive NavPoint where
  | mk (label : String) (src : Option String) (children : List NavPoint)

/-- Result of `parseStringPromise` on an NCX file:
`navPoints` models the `ncx.navMap[0].navPoint` access chain
(`none` when some link of the chain is missing). -/
structure NcxDoc where
  navPoints : Option (List NavPoint)

/-- Result of `parseStringPromise` on `META-INF/container.xml`:
`fullPath` models `container.rootfiles[0].rootfile[0].$['full-path']`
(the empty string modelling an absent attribute). -/
structure ContainerDoc where
  fullPath : String
deriving DecidableEq, Repr

/-- A metadata element value as produced by xml2js: either plain text or an
element object with text content `_` and (for contributors) role
attributes; absent text/attributes are modelled by the empty string. -/
inductive XmlVal where
  | vstr (s : String)
  | vobj (text : String) (role : String) (opfRole : String)
deriving DecidableEq, Repr

/-- A metadata map value: a single value or an element array
(xml2js wraps repeated elements in arrays). -/
inductive JsVal where
  | single (v : XmlVal)
  | arr (vs : List XmlVal)
deriving DecidableEq, Repr

/-- A `<meta>` tag in the package metadata; absent attributes are the
empty string. -/
structure MetaTag where
  name : String
  content : String
deriving DecidableEq, Repr

/-- The parsed `package.metadata[0]` block: keyed element values plus the
`meta` tag array (an absent `meta` key behaves like the empty array). -/
structure OpfMetadata where
  entries : List (String × JsVal)
  meta : List MetaTag
deriving DecidableEq, Repr

/-- Manifest item attributes (`item.$`); absent attributes are the empty
string, preserving every comparison the source performs on them. -/
structure ManifestItem where
  id : String
  href : String
  mediaType : String
  properties : String
deriving DecidableEq, Repr

/-- Spine reference (`itemref.$.idref`; absent modelled as empty). -/
structure SpineRef where
  idref : String
deriving DecidableEq, Repr

/-- The parsed OPF package document.  `spine = none` models a missing
`spine[0].itemref` array (the source checks `Array.isArray`). -/
structure PackageDoc where
  metadata : OpfMetadata
  manifest : List ManifestItem
  spine : Option (List SpineRef)
deriving DecidableEq, Repr

/-- An archive entry: its text content (`file.async('text')`), raw bytes
(`file.async('nodebuffer')`), and the xml2js parse results the source may
request for it (`none` models a parse failure / non-XML entry). -/
structure ZipEntry where
  text : String
  bytes : List Nat
  containerParse : Option ContainerDoc
  opfParse : Option PackageDoc
  ncxParse : Option NcxDoc

/-- A plain-text archive entry with no parsed forms attached. -/
def textEntry (t : String) : ZipEntry :=
  ⟨t, [], none, none, none⟩

/-- The opened archive: a finite, exact-match map from path to entry
(JSZip's `zip.file(path)`). -/
structure Archive where
  entries : List (String × ZipEntry)

/-- JSZip `zip.file(path)`: exact-match lookup. -/
def Archive.file (z : Archive) (p : String) : Option ZipEntry :=
  (z.entries.find? (fun e => e.1 = p)).map (·.2)

/-- First path in the list that resolves to an archive entry, with the
entry (the `pathsToTry` loops of the source, which also remember the
successful path). -/
def firstFileWithPath (z : Archive) : List String → Option (String × ZipEntry)
  | [] => none
  | p :: rest =>
    match z.file p with
    | some e => some (p, e)
    | none => firstFileWithPath z rest

/-- First archive entry found among the candidate paths. -/
def firstFile (z : Archive) (ps : List String) : Option ZipEntry :=
  (firstFileWithPath z ps).map (·.2)

/-! ### ChapterSplitter (src/api/core/analyzers/chapter-splitter.ts) -/

/-- Split options: target level, optional maximum chapter length,
optional removeHtml flag (unused by the source logic). -/
structure SplitOptions where
  level : Nat
  maxChapterLength : Option Nat
  removeHtml : Option Bool
deriving DecidableEq, Repr

/-- Splitter state: the private `zip` handle (null when not initialized or
disposed) and the `opfDir` string. -/
structure SplitterState where
  zip : Option Archive
  opfDir : String

/-- A freshly constructed `ChapterSplitter` (`zip = null`, `opfDir = ''`). -/
def ChapterSplitter.new : SplitterState :=
  ⟨none, ""⟩

/-- `dispose()`: releases the archive handle. -/
def ChapterSplitter.dispose (_st : SplitterState) : SplitterState :=
  ⟨none, ""⟩

/-- `cleanup()`: delegates to `dispose()`. -/
def ChapterSplitter.cleanup (st : SplitterState) : SplitterState :=
  ChapterSplitter.dispose st

/-- The parse-time file input: existence, lowercase extension, byte size,
and the loaded archive (`none` when `JSZip.loadAsync` fails). -/
structure EpubFile where
  present : Bool
  ext : String
  size : Nat
  zip : Option Archive

/-- `ChapterSplitter.initializeSplitter(filePath)`: loads the archive, then reads
and parses `META-INF/container.xml` to obtain `opfDir`.  The source sets
`this.zip` before the container step, so a failure in the container step
leaves the handle set; the returned pair is (new state, thrown error or
unit). -/
def ChapterSplitter.initializeSplitter (st : SplitterState) (f : EpubFile) :
    SplitterState × Except String Unit :=
  match f.zip with
  | none => (st, .error "初始化章节拆分器失败")
  | some z =>
    let st1 : SplitterState := { st with zip := some z }
    match z.file "META-INF/container.xml" with
    | none => (st1, .error "初始化章节拆分器失败")
    | some cf =>
      match cf.containerParse with
      | none => (st1, .error "初始化章节拆分器失败")
      | some cd => ({ st1 with opfDir := pathDirname cd.fullPath }, .ok ())

/-- `extractTextFromHtml`: strip script/style blocks, turn block closing
tags and `<br>`/`<hr>` into newlines, strip remaining tags, decode the
fixed entity set. -/
def ChapterSplitter.extractTextFromHtml (html : String) : String :=
  let s1 := stripBlocks "<script" "</script>" html
  let s2 := stripBlocks "<style" "</style>" s1
  let s3 := String.mk (newlineScanAux matchBlockClose s2.data.length s2.data)
  let s4 := String.mk (newlineScanAux matchBrHr s3.data.length s3.data)
  let s5 := String.mk (stripTagsAux s4.data.length s4.data)
  htmlEntityDecode s5

/-- `cleanText`: collapse all whitespace runs to single spaces, merge blank
lines, trim, then double the newlines. -/
def ChapterSplitter.cleanText (text : String) : String :=
  let s1 := String.mk (collapseWsAux text.data.length text.data)
  let s2 := String.mk (collapseNlAux s1.data.length s1.data)
  let s3 := strTrim s2
  strReplace s3 "\n" "\n\n"

/-- `countWords`: CJK ideograph count plus `\b[a-zA-Z]+\b` word count. -/
def ChapterSplitter.countWords (text : String) : Nat :=
  text.data.countP cjkChar + countEngAux text.data.length false text.data

/-- The character class `[一二三四五六七八九十\d]`. -/
def partNumChar (c : Char) : Bool :=
  c ∈ ['一', '二', '三', '四', '五', '六', '七', '八', '九', '十'] || c.isDigit

/-- Test for `第[一二三四五六七八九十\d]+部分` somewhere in the title. -/
def partNumRegex (cs : List Char) : Bool :=
  match cs with
  | [] => false
  | '第' :: rest =>
    (match rest.dropWhile partNumChar with
     | '部' :: '分' :: _ => !(rest.takeWhile partNumChar).isEmpty
     | _ => false) || partNumRegex rest
  | _ :: rest => partNumRegex rest

/-- The character class `[IVX\d]` under the `i` flag. -/
def romanOrDigit (c : Char) : Bool :=
  c.toLower = 'i' || c.toLower = 'v' || c.toLower = 'x' || c.isDigit

/-- Test for `Part\s+[IVX\d]+` case-insensitively somewhere in the title. -/
def partEnRegex (cs : List Char) : Bool :=
  match cs with
  | [] => false
  | _ :: rest =>
    (match litCI cs ['p', 'a', 'r', 't'] with
     | some cs1 =>
       match cs1 with
       | c1 :: _ =>
         wsChar c1 &&
           (match (cs1.dropWhile wsChar) with
            | c2 :: _ => romanOrDigit c2
            | [] => false)
       | [] => false
     | none => false) || partEnRegex rest

/-- `isPartTitle`: `第…部分`, `Part N` (case-insensitive), or any title
containing `部分`. -/
def ChapterSplitter.isPartTitle (title : String) : Bool :=
  partNumRegex title.data || partEnRegex title.data || containsSub title "部分"

/-- The full-path computation shared by `extractChapterContent` and
`extractPartContent`: strip the fragment, then prefix `opfDir` unless it
is empty or `"."`. -/
def partFullPath (opfDir href : String) : String :=
  let h := strUpToHash href
  if opfDir = "" ∨ opfDir = "." then h else opfDir ++ "/" ++ h

/-- `getChapterRangeForPart`: the fixed part-title → chapter-range map. -/
def ChapterSplitter.getChapterRangeForPart (partTitle : String) :
    Option (Nat × Nat) :=
  if containsSub partTitle "第一部分" then some (2, 4)
  else if containsSub partTitle "第二部分" then some (5, 8)
  else if containsSub partTitle "第三部分" then some (9, 11)
  else if containsSub partTitle "第四部分" then some (12, 15)
  else if containsSub partTitle "第五部分" then some (16, 17)
  else none

/-- The fixed chapter-number → content-file map of
`extractChapterRangeContent`. -/
def chapterFiles (n : Nat) : Option String :=
  match n with
  | 2 => some "text/part0006.html"
  | 3 => some "text/part0007.html"
  | 4 => some "text/part0008.html"
  | 5 => some "text/part0009.html"
  | 6 => some "text/part0010.html"
  | 7 => some "text/part0011.html"
  | 8 => some "text/part0012.html"
  | 9 => some "text/part0013.html"
  | 10 => some "text/part0014.html"
  | 11 => some "text/part0015.html"
  | 12 => some "text/part0016.html"
  | 13 => some "text/part0017.html"
  | 14 => some "text/part0018.html"
  | 15 => some "text/part0019.html"
  | 16 => some "text/part0020.html"
  | 17 => some "text/part0021.html"
  | _ => none

/-- `extractChapterRangeContent`: walk the chapter numbers of the range in
ascending order, appending `"\n\n" ++ text` for every mapped file that
exists and whose extracted text is non-blank; unmapped numbers, missing
files and blank texts are skipped. -/
def ChapterSplitter.extractChapterRangeContent (zip : Archive)
    (r : Nat × Nat) : String :=
  (List.range' r.1 (r.2 + 1 - r.1)).foldl (fun content n =>
    match chapterFiles n with
    | none => content
    | some fp =>
      match zip.file fp with
      | none => content
      | some en =>
        let tc := ChapterSplitter.extractTextFromHtml en.text
        if strTrim tc ≠ "" then content ++ "\n\n" ++ tc else content) ""

/-- `extractPartContent`: read the part entry's own document, then append
the aggregated range content (when the title is in the fixed map and the
aggregation produced anything).  A missing starting file makes the
internal catch return the empty string. -/
def ChapterSplitter.extractPartContent (zip : Archive) (opfDir : String)
    (t : TocItem) : String :=
  match zip.file (partFullPath opfDir t.href) with
  | none => ""
  | some e =>
    let start := ChapterSplitter.extractTextFromHtml e.text
    match ChapterSplitter.getChapterRangeForPart t.title with
    | none => start
    | some r =>
      let extra := ChapterSplitter.extractChapterRangeContent zip r
      if extra ≠ "" then start ++ "\n\n" ++ extra else start

/-- `extractChapterContent`: null for an entry without `href`; part titles
aggregate via `extractPartContent` (whose failures yield empty content),
other entries read their own document (a missing file yields null).  The
text is cleaned, optionally truncated with an ellipsis when
`maxChapterLength` is set (JS-truthy) and exceeded, and the word count is
computed from the final content; `index` is a placeholder 0. -/
def ChapterSplitter.extractChapterContent (zip : Archive) (opfDir : String)
    (t : TocItem) (opts : SplitOptions) : Option ChapterContent :=
  if t.href = "" then none
  else
    let textOpt : Option String :=
      if ChapterSplitter.isPartTitle t.title then
        some (ChapterSplitter.extractPartContent zip opfDir t)
      else
        (zip.file (partFullPath opfDir t.href)).map
          (fun e => ChapterSplitter.extractTextFromHtml e.text)
    match textOpt with
    | none => none
    | some raw =>
      let cleaned := ChapterSplitter.cleanText raw
      let final :=
        match opts.maxChapterLength with
        | some m =>
          if m ≠ 0 ∧ cleaned.length > m then strTake cleaned m ++ "..."
          else cleaned
        | none => cleaned
      some ⟨0, t.title, final, ChapterSplitter.countWords final, t.level⟩

/-- `filterTocByLevel`: keep the entries whose `level` equals the target. -/
def ChapterSplitter.filterTocByLevel (toc : List TocItem) (lvl : Nat) :
    List TocItem :=
  toc.filter (fun it => it.level = lvl)

/-- `splitChapters`: throws the initialization error when the archive
handle is null; otherwise extracts one chapter per TOC entry at the
requested level (failed extractions are skipped) and then re-assigns the
`index` fields sequentially over the surviving chapters. -/
def ChapterSplitter.splitChapters (st : SplitterState) (toc : List TocItem)
    (opts : SplitOptions) : Except String (List ChapterContent) :=
  match st.zip with
  | none => .error "章节拆分器未初始化"
  | some zip =>
    let targetTocItems := ChapterSplitter.filterTocByLevel toc opts.level
    let chapters := targetTocItems.filterMap
      (fun t => ChapterSplitter.extractChapterContent zip st.opfDir t opts)
    .ok (chapters.enum.map (fun p => { p.2 with index := p.1 }))

/-- A `wordCounts` element of `getChapterStats`. -/
structure StatEntry where
  index : Nat
  title : String
  wordCount : Nat
deriving DecidableEq, Repr

/-- The statistics record returned by `getChapterStats`. -/
structure ChapterStats where
  totalChapters : Nat
  totalWords : Nat
  averageWords : Int
  longestChapter : StatEntry
  shortestChapter : StatEntry
deriving DecidableEq, Repr

/-- The `wordCounts` array of `getChapterStats`: position, title, and a
word count recomputed from the chapter content. -/
def wcEntries (chapters : List ChapterContent) : List StatEntry :=
  chapters.enum.map
    (fun p => ⟨p.1, p.2.title, ChapterSplitter.countWords p.2.content⟩)

/-- The accumulator step of the longest-chapter `reduce` (strict `>` keeps
the first maximum). -/
def maxStep (mx it : StatEntry) : StatEntry :=
  if it.wordCount > mx.wordCount then it else mx

/-- The accumulator step of the shortest-chapter `reduce` (strict `<` keeps
the first minimum). -/
def minStep (mn it : StatEntry) : StatEntry :=
  if it.wordCount < mn.wordCount then it else mn

/-- `getChapterStats`: zeros for an empty list; otherwise total, rounded
average (`Math.round` of the exact quotient), and first-encountered
longest/shortest entries of the recomputed word counts. -/
def ChapterSplitter.getChapterStats (chapters : List ChapterContent) :
    ChapterStats :=
  match chapters with
  | [] => ⟨0, 0, 0, ⟨0, "", 0⟩, ⟨0, "", 0⟩⟩
  | _ :: _ =>
    let wordCounts := wcEntries chapters
    let totalWords := wordCounts.foldl (fun s it => s + it.wordCount) 0
    let longestChapter :=
      match wordCounts with
      | [] => ⟨0, "", 0⟩
      | w :: ws => ws.foldl maxStep w
    let shortestChapter :=
      match wordCounts with
      | [] => ⟨0, "", 0⟩
      | w :: ws => ws.foldl minStep w
    ⟨chapters.length, totalWords,
      round ((totalWords : ℚ) / (chapters.length : ℚ)),
      longestChapter, shortestChapter⟩

/-! ### EPUBParser: configuration, metadata, cover (src/unnamed/part_000) -/

/-- Parse configuration (base-parser.ts `ParseConfig`). -/
structure ParseConfig where
  extractCover : Bool
  extractToc : Bool
  extractMetadata : Bool
  maxCoverSize : Nat
  imageQuality : Nat
deriving DecidableEq, Repr

/-- base-parser.ts `DEFAULT_PARSE_CONFIG`. -/
def DEFAULT_PARSE_CONFIG : ParseConfig :=
  ⟨true, true, true, 300, 80⟩

/-- Model of the external sharp pipeline plus base64 step: maps the image
bytes, `maxCoverSize` and `imageQuality` to the base64 payload, or `none`
when the image library throws. -/
def EncodeFn : Type :=
  List Nat → Nat → Nat → Option String

/-- JS `a || b` for strings (empty string and `undefined` are falsy). -/
def jsOr (a b : String) : String :=
  if a = "" then b else a

/-- `getMetadataValue`: first element's text for arrays, text for plain
values, empty for an absent key or missing text content. -/
def getMetadataValue (m : OpfMetadata) (key : String) : String :=
  match m.entries.lookup key with
  | none => ""
  | some (.arr vs) =>
    match vs with
    | [] => ""
    | .vstr s :: _ => s
    | .vobj t _ _ :: _ => t
  | some (.single (.vstr s)) => s
  | some (.single (.vobj t _ _)) => t

/-- Text content of a contributor entry (`contributor` itself when it is a
plain string, else `contributor._`). -/
def contributorText : XmlVal → String
  | .vstr s => s
  | .vobj t _ _ => t

/-- Role of a contributor entry
(`contributor.$?.role || contributor.$?.['opf:role']`). -/
def contributorRole : XmlVal → String
  | .vstr _ => ""
  | .vobj _ r o => jsOr r o

/-- Scan the contributor array for the first entry with role `trl` or
`translator`. -/
def findTranslatorIn : List XmlVal → String
  | [] => ""
  | v :: rest =>
    let role := contributorRole v
    if role = "trl" ∨ role = "translator" then contributorText v
    else findTranslatorIn rest

/-- The translator scan of `extractBookInfo` over `dc:contributor`
(single values are wrapped in a one-element array). -/
def findTranslator (m : OpfMetadata) : String :=
  match m.entries.lookup "dc:contributor" with
  | none => ""
  | some (.arr vs) => findTranslatorIn vs
  | some (.single v) => findTranslatorIn [v]

/-- `extractBookInfo`: scalar fields with their fallbacks plus the
translator scan.  Title/author/publisher fall back to `未知…` sentinels,
language to `zh`, while isbn and date fall back to the empty string. -/
def EPUBParser.extractBookInfo (m : OpfMetadata) : BookInfo :=
  { title := jsOr (getMetadataValue m "dc:title") "未知标题"
    author := jsOr (getMetadataValue m "dc:creator") "未知作者"
    publisher := jsOr (getMetadataValue m "dc:publisher") "未知出版社"
    language := jsOr (getMetadataValue m "dc:language") "zh"
    isbn := jsOr (getMetadataValue m "dc:identifier") ""
    publication_date := jsOr (getMetadataValue m "dc:date") ""
    translator := findTranslator m }

/-- JS truthiness of a metadata value (`if (metadata.cover)`): only a
plain empty string is falsy; arrays and element objects are truthy. -/
def jsTruthyVal : JsVal → Bool
  | .single (.vstr s) => s ≠ ""
  | _ => true

/-- JS strict equality `item.$?.id === value` between a string and a raw
metadata value: true only for an equal plain string. -/
def jsValEqStr (v : JsVal) (id : String) : Bool :=
  match v with
  | .single (.vstr s) => s = id
  | _ => false

/-- Cover method 3: scan the `meta` tags for `name="cover"` with a truthy
`content` that resolves in the manifest; a tag whose content does not
resolve is skipped and the scan continues. -/
def findCoverByMeta (manifest : List ManifestItem) : List MetaTag → String
  | [] => ""
  | mt :: rest =>
    if mt.name = "cover" ∧ mt.content ≠ "" then
      match manifest.find? (fun it => it.id = mt.content) with
      | some it => it.href
      | none => findCoverByMeta manifest rest
    else findCoverByMeta manifest rest

/-- The conventional cover filenames of method 5. -/
def coverCommonNames : List String :=
  ["cover.jpg", "cover.jpeg", "cover.png", "cover.gif", "cover.webp"]

/-- The six-strategy candidate selection of `extractCoverInfo`, producing
the chosen `coverImagePath` (empty when every strategy fails). -/
def selectCoverPath (zip : Archive) (opf : PackageDoc) (opfDir : String) :
    String :=
  let manifest := opf.manifest
  let m1 :=
    match opf.metadata.entries.lookup "cover" with
    | some v =>
      if jsTruthyVal v then
        match manifest.find? (fun it => jsValEqStr v it.id) with
        | some it => it.href
        | none => ""
      else ""
    | none => ""
  if m1 ≠ "" then m1 else
  let m2 :=
    match manifest.find?
        (fun it => it.properties = "cover-image" ∨ it.id = "cover-image") with
    | some it => it.href
    | none => ""
  if m2 ≠ "" then m2 else
  let m3 := findCoverByMeta manifest opf.metadata.meta
  if m3 ≠ "" then m3 else
  let m4 :=
    match manifest.find? (fun it =>
        strStartsWith it.mediaType "image/" ∧
          (containsSub (strLower it.id) "cover" ∨
            containsSub (strLower it.href) "cover")) with
    | some it => it.href
    | none => ""
  if m4 ≠ "" then m4 else
  let m5 :=
    match coverCommonNames.find? (fun nm =>
        (zip.file (if opfDir ≠ "" then opfDir ++ "/" ++ nm else nm)).isSome) with
    | some nm => nm
    | none => ""
  if m5 ≠ "" then m5 else
  match manifest.find? (fun it => strStartsWith it.mediaType "image/") with
  | some it => it.href
  | none => ""

/-- The `pathsToTry` list of `extractCoverInfo`: raw path, opfDir-prefixed
path, `./`-stripped/added variants, then the conventional directories with
both the full path and the bare filename. -/
def coverPathsToTry (p opfDir : String) : List String :=
  [p]
  ++ (if opfDir ≠ "" ∧ opfDir ≠ "." then [opfDir ++ "/" ++ p] else [])
  ++ (if strStartsWith p "./" then [strDrop p 2] else [])
  ++ (if ¬ strStartsWith p "./" then ["./" ++ p] else [])
  ++ (["", "OEBPS", "content", "images", "img"].map (fun dir =>
        if dir ≠ "" then
          [dir ++ "/" ++ p] ++
            (let fn := lastSlashComponent p
             if fn ≠ "" ∧ fn ≠ p then [dir ++ "/" ++ fn] else [])
        else [])).flatten

/-- `extractCoverInfo`: skipped entirely (`undefined`) when disabled;
otherwise the strategy chain picks a candidate path, the path search finds
the entry, and the image is processed and re-encoded.  Every failure path
returns an empty cover image with its status string; an image-processing
failure corresponds to the catch-all handler. -/
def EPUBParser.extractCoverInfo (cfg : ParseConfig) (enc : EncodeFn)
    (zip : Archive) (opf : PackageDoc) (opfDir : String) : Option CoverInfo :=
  if cfg.extractCover = false then none
  else
    let coverImagePath := selectCoverPath zip opf opfDir
    if coverImagePath = "" then some ⟨"", "无封面图片"⟩
    else
      match firstFileWithPath zip (coverPathsToTry coverImagePath opfDir) with
      | none => some ⟨"", "封面图片文件不存在"⟩
      | some (_, entry) =>
        if entry.bytes.isEmpty then some ⟨"", "封面图片数据为空"⟩
        else
          match enc entry.bytes cfg.maxCoverSize cfg.imageQuality with
          | none => some ⟨"", "封面提取失败"⟩
          | some b64 => some ⟨"data:image/jpeg;base64," ++ b64, "书籍封面"⟩

/-! ### EPUBParser: table-of-contents resolver -/

/-- Match the `<a\s+href=["']([^"']+)["'][^>]*>([^<]+)<\/a>` pattern at the
head of the input, returning href capture, title capture and remainder. -/
def matchAnchor (cs : List Char) : Option (String × String × List Char) :=
  match litCI cs "<a".data with
  | none => none
  | some cs1 =>
    match cs1 with
    | [] => none
    | c1 :: _ =>
      if wsChar c1 then
        match litCI (cs1.dropWhile wsChar) "href=".data with
        | none => none
        | some cs3 =>
          match cs3 with
          | [] => none
          | q :: cs4 =>
            if q = '"' ∨ q = Char.ofNat 39 then
              let hrefCs := cs4.takeWhile (fun c => c ≠ '"' ∧ c ≠ Char.ofNat 39)
              let rest1 := cs4.dropWhile (fun c => c ≠ '"' ∧ c ≠ Char.ofNat 39)
              if hrefCs.isEmpty then none
              else
                match rest1 with
                | [] => none
                | _ :: cs5 =>
                  match dropTagRest cs5 with
                  | none => none
                  | some cs6 =>
                    let titleCs := cs6.takeWhile (· ≠ '<')
                    let rest2 := cs6.dropWhile (· ≠ '<')
                    if titleCs.isEmpty then none
                    else
                      match litCI rest2 "</a>".data with
                      | none => none
                      | some cs7 => some (⟨hrefCs⟩, ⟨titleCs⟩, cs7)
            else none
      else none

/-- Match the full `<li[^>]*>\s*…anchor…\s*<\/li>` pattern of
`parseNavXhtmlContent`. -/
def matchLi (cs : List Char) : Option (String × String × List Char) :=
  match litCI cs "<li".data with
  | none => none
  | some a =>
    match dropTagRest a with
    | none => none
    | some b =>
      match matchAnchor (b.dropWhile wsChar) with
      | none => none
      | some (h, t, c2) =>
        match litCI (c2.dropWhile wsChar) "</li>".data with
        | none => none
        | some c3 => some (h, t, c3)

/-- Global scan of the li/anchor pattern (the `while exec` loop). -/
def scanLiAux : Nat → List Char → List (String × String)
  | 0, _ => []
  | _ + 1, [] => []
  | f + 1, cs@(_ :: rest) =>
    match matchLi cs with
    | some (h, t, rem) => (h, t) :: scanLiAux f rem
    | none => scanLiAux f rest

/-- `parseNavXhtmlContent`: one flat level-1 entry per li/anchor match with
non-blank trimmed title; ids from the counter. -/
def EPUBParser.parseNavXhtmlContent (content : String) (c : Nat) :
    List TocItem × Nat :=
  (scanLiAux content.data.length content.data).foldl
    (fun acc m =>
      let title := strTrim m.2
      if title ≠ "" ∧ m.1 ≠ "" then
        (acc.1 ++ [⟨acc.2, title, 1, m.1, none⟩], acc.2 + 1)
      else acc)
    ([], c)

/-- `extractTocFromNavFile`: find the manifest item flagged `nav` (or with
`nav.xhtml` in its href), read it via the two-path strategy, and parse it. -/
def EPUBParser.extractTocFromNavFile (zip : Archive)
    (manifest : List ManifestItem) (opfDir : String) (c : Nat) :
    List TocItem × Nat :=
  let navPath :=
    match manifest.find? (fun it =>
        containsSub it.properties "nav" ∨
          containsSub (strLower it.href) "nav.xhtml") with
    | some it => it.href
    | none => ""
  if navPath = "" then ([], c)
  else
    match firstFile zip
        [navPath,
         if opfDir ≠ "" ∧ opfDir ≠ "." then opfDir ++ "/" ++ navPath
         else navPath] with
    | none => ([], c)
    | some e => EPUBParser.parseNavXhtmlContent e.text c

/-- `parseNcxNavMap`: depth-first walk of the navigation points, assigning
`level` by recursion depth and `parent_id` as the id generated for the
immediately enclosing navigation point; the second component is the next
fresh id. -/
def EPUBParser.parseNcxNavMap :
    List NavPoint → Nat → Option Nat → Nat → List TocItem × Nat
  | [], _, _, c => ([], c)
  | .mk label src children :: rest, level, parentId, c =>
    let tocItem : TocItem := ⟨c, label, level, src.getD "", parentId⟩
    let child := EPUBParser.parseNcxNavMap children (level + 1) (some c) (c + 1)
    let restR := EPUBParser.parseNcxNavMap rest level parentId child.2
    (tocItem :: (child.1 ++ restR.1), restR.2)

/-- `extractTocFromNcxFile`: locate the NCX by media type or conventional
path, read it via the two-path strategy, check the navMap shape, and walk
it. -/
def EPUBParser.extractTocFromNcxFile (zip : Archive)
    (manifest : List ManifestItem) (opfDir : String) (c : Nat) :
    List TocItem × Nat :=
  let ncxPath0 :=
    match manifest.find?
        (fun it => it.mediaType = "application/x-dtbncx+xml") with
    | some it => it.href
    | none => ""
  let ncxPath :=
    if ncxPath0 = "" then
      match (["toc.ncx",
              if opfDir ≠ "" then opfDir ++ "/toc.ncx" else "toc.ncx",
              "OEBPS/toc.ncx", "content/toc.ncx"] : List String).find?
          (fun p => (zip.file p).isSome) with
      | some p => p
      | none => ""
    else ncxPath0
  if ncxPath = "" then ([], c)
  else
    match firstFile zip
        [ncxPath,
         if opfDir ≠ "" ∧ opfDir ≠ "." then opfDir ++ "/" ++ ncxPath
         else ncxPath] with
    | none => ([], c)
    | some e =>
      match e.ncxParse with
      | none => ([], c)
      | some doc =>
        match doc.navPoints with
        | none => ([], c)
        | some pts => EPUBParser.parseNcxNavMap pts 1 none c

/-- Split at the first case-insensitive occurrence of a literal, returning
the part before and the part after it (the lazy `([\s\S]*?)` capture). -/
def splitAtLitCI : Nat → List Char → List Char → List Char →
    Option (List Char × List Char)
  | 0, _, _, _ => none
  | _ + 1, _, _, [] => none
  | f + 1, lit, acc, cs@(c :: rest) =>
    match litCI cs lit with
    | some rem => some (acc.reverse, rem)
    | none => splitAtLitCI f lit (c :: acc) rest

/-- Match `<div[^>]*>([\s\S]*?)<\/div>`, returning the inner capture and
the remainder. -/
def matchDiv (cs : List Char) : Option (List Char × List Char) :=
  match litCI cs "<div".data with
  | none => none
  | some a =>
    match dropTagRest a with
    | none => none
    | some b => splitAtLitCI b.length "</div>".data [] b

/-- Global scan collecting every div inner content. -/
def scanDivsAux : Nat → List Char → List (List Char)
  | 0, _ => []
  | _ + 1, [] => []
  | f + 1, cs@(_ :: rest) =>
    match matchDiv cs with
    | some (inner, rem) => inner :: scanDivsAux f rem
    | none => scanDivsAux f rest

/-- Global scan collecting every anchor match inside a div body. -/
def scanAnchorsAux : Nat → List Char → List (String × String)
  | 0, _ => []
  | _ + 1, [] => []
  | f + 1, cs@(_ :: rest) =>
    match matchAnchor cs with
    | some (h, t, rem) => (h, t) :: scanAnchorsAux f rem
    | none => scanAnchorsAux f rest

/-- Test for `a[^\n]*b` (the JS `.` class excludes line terminators),
used for the `第.*章` / `第.*节` keyword regexes. -/
def dotStarAux (a b : Char) : Bool → List Char → Bool
  | _, [] => false
  | seen, c :: rest =>
    if c = '\n' ∨ c = '\r' then dotStarAux a b false rest
    else if seen ∧ c = b then true
    else dotStarAux a b (seen || c = a) rest

/-- String-level wrapper for `dotStarAux`. -/
def dotStar (s : String) (a b : Char) : Bool :=
  dotStarAux a b false s.data

/-- The table-of-contents keyword pre-check of `parseHtmlTocContent`:
lower-cased literal containment or case-insensitive regex test for each
keyword of `['目录','contents','toc','章','chapter','第.*章','第.*节']`. -/
def hasTocKeywords (content : String) : Bool :=
  let lower := strLower content
  containsSub lower "目录" || containsSub lower "contents" ||
    containsSub lower "toc" || containsSub lower "章" ||
    containsSub lower "chapter" || containsSub lower "第.*章" ||
    containsSub lower "第.*节" || dotStar content '第' '章' ||
    dotStar content '第' '节'

/-- `parseHtmlTocContent`: keyword gate, then for every div body and every
anchor inside it keep entries whose trimmed title looks like a chapter
(contains `章`, `Chapter`, `第`, or a digit). -/
def EPUBParser.parseHtmlTocContent (content : String) (c : Nat) :
    List TocItem × Nat :=
  if ¬ hasTocKeywords content then ([], c)
  else
    (scanDivsAux content.data.length content.data).foldl
      (fun acc inner =>
        (scanAnchorsAux inner.length inner).foldl
          (fun acc2 m =>
            let title := strTrim m.2
            if title ≠ "" ∧ m.1 ≠ "" ∧
                (containsSub title "章" ∨ containsSub title "Chapter" ∨
                  containsSub title "第" ∨ title.data.any Char.isDigit) then
              (acc2.1 ++ [⟨acc2.2, title, 1, m.1, none⟩], acc2.2 + 1)
            else acc2)
          acc)
      ([], c)

/-- The manifest loop of `extractTocFromHtmlFiles`: first candidate
document that yields any matches wins. -/
def extractTocFromHtmlLoop (zip : Archive) (opfDir : String) (c : Nat) :
    List ManifestItem → List TocItem × Nat
  | [] => ([], c)
  | it :: rest =>
    if containsSub it.mediaType "html" ∨
        containsSub (strLower it.href) "toc" ∨
        containsSub (strLower it.href) "contents" ∨
        containsSub (strLower it.href) "index" then
      match firstFile zip
          [it.href,
           if opfDir ≠ "" ∧ opfDir ≠ "." then opfDir ++ "/" ++ it.href
           else it.href] with
      | none => extractTocFromHtmlLoop zip opfDir c rest
      | some e =>
        let r := EPUBParser.parseHtmlTocContent e.text c
        if r.1.length > 0 then r else extractTocFromHtmlLoop zip opfDir c rest
    else extractTocFromHtmlLoop zip opfDir c rest

/-- `extractTocFromHtmlFiles` (tier 3). -/
def EPUBParser.extractTocFromHtmlFiles (zip : Archive)
    (manifest : List ManifestItem) (opfDir : String) (c : Nat) :
    List TocItem × Nat :=
  extractTocFromHtmlLoop zip opfDir c manifest

/-- `extractTocFromSpine` (tier 4): one flat generically-titled entry per
spine reference that resolves through the manifest. -/
def EPUBParser.extractTocFromSpine (opf : PackageDoc) (c : Nat) :
    List TocItem × Nat :=
  match opf.spine with
  | none => ([], c)
  | some refs =>
    refs.enum.foldl
      (fun acc p =>
        if p.2.idref = "" then acc
        else
          match opf.manifest.find? (fun it => it.id = p.2.idref) with
          | none => acc
          | some mi =>
            (acc.1 ++ [⟨acc.2, "第" ++ toString (p.1 + 1) ++ "章", 1,
                         mi.href, none⟩],
              acc.2 + 1))
      ([], c)

/-- `extractTableOfContents`: the four-tier fallback chain; the first tier
producing a non-empty list wins. -/
def EPUBParser.extractTableOfContents (cfg : ParseConfig) (zip : Archive)
    (opf : PackageDoc) (opfDir : String) (c : Nat) : List TocItem × Nat :=
  if cfg.extractToc = false then ([], c)
  else
    let nav := EPUBParser.extractTocFromNavFile zip opf.manifest opfDir c
    if nav.1.length > 0 then nav
    else
      let ncx := EPUBParser.extractTocFromNcxFile zip opf.manifest opfDir nav.2
      if ncx.1.length > 0 then ncx
      else
        let html :=
          EPUBParser.extractTocFromHtmlFiles zip opf.manifest opfDir ncx.2
        if html.1.length > 0 then html
        else EPUBParser.extractTocFromSpine opf html.2

/-! ### EPUBParser: validate and parse -/

/-- The structured parse result (book.types.ts `ParseResult`, the fields
the parser populates; `coverInfo = none` models an absent field). -/
structure ParseResult where
  bookInfo : BookInfo
  coverInfo : Option CoverInfo
  tableOfContents : List TocItem
  success : Bool
  error : Option String
deriving DecidableEq, Repr

/-- The empty `bookInfo` used by base-parser's result builders. -/
def emptyBookInfo : BookInfo :=
  ⟨"", "", "", "", "", "", ""⟩

/-- base-parser `createError`. -/
def createError (msg : String) : ParseResult :=
  ⟨emptyBookInfo, none, [], false, some msg⟩

/-- base-parser `createSuccess` applied to the data `parse` passes it. -/
def createSuccess (b : BookInfo) (cov : Option CoverInfo)
    (toc : List TocItem) : ParseResult :=
  ⟨b, cov, toc, true, none⟩

/-- `EPUBParser.validate`: existence, supported extension, non-empty and
bounded size, loadable archive, exact `mimetype` content, and a container
descriptor whose root-file path attribute is present. -/
def EPUBParser.validate (f : EpubFile) : Bool :=
  f.present &&
  (strLower f.ext = ".epub") &&
  (f.size ≠ 0) &&
  (f.size ≤ 100 * 1024 * 1024) &&
  (match f.zip with
   | none => false
   | some z =>
     (match z.file "mimetype" with
      | none => false
      | some mf => strTrim mf.text = "application/epub+zip") &&
     (match z.file "META-INF/container.xml" with
      | none => false
      | some cf =>
        match cf.containerParse with
        | none => false
        | some cd => cd.fullPath ≠ ""))

/-- `EPUBParser.parse`: validate, load, resolve the container and the OPF,
then extract book info, cover info and the table of contents.  Failure
branches map to `createError` results (the catch handler); the branches
after a successful `validate` that re-read the same data cannot fail. -/
def EPUBParser.parse (cfg : ParseConfig) (enc : EncodeFn) (f : EpubFile) :
    ParseResult :=
  if EPUBParser.validate f = false then createError "无效的EPUB文件"
  else
    match f.zip with
    | none => createError "无效的EPUB文件"
    | some z =>
      match z.file "META-INF/container.xml" with
      | none => createError "解析失败: 文件不存在: META-INF/container.xml"
      | some cf =>
        match cf.containerParse with
        | none => createError "解析失败: container.xml解析错误"
        | some cd =>
          let opfPath := cd.fullPath
          match z.file opfPath with
          | none => createError ("解析失败: 文件不存在: " ++ opfPath)
          | some oe =>
            match oe.opfParse with
            | none => createError "解析失败: OPF解析错误"
            | some opfData =>
              let opfDir := pathDirname opfPath
              let bookInfo := EPUBParser.extractBookInfo opfData.metadata
              let coverInfo :=
                EPUBParser.extractCoverInfo cfg enc z opfData opfDir
              let toc :=
                (EPUBParser.extractTableOfContents cfg z opfData opfDir 0).1
              createSuccess bookInfo coverInfo toc

/-! ### Concrete fixtures used by witnesses and counterexamples -/

/-- An archive with no entries. -/
def zipEmpty : Archive := ⟨[]⟩

/-- Split options requesting level 1. -/
def opts0 : SplitOptions := ⟨1, none, none⟩

/-- An initialized splitter over the empty archive. -/
def st0 : SplitterState := ⟨some zipEmpty, ""⟩

/-- A loadable epub file whose archive lacks `META-INF/container.xml`. -/
def f10 : EpubFile := ⟨true, ".epub", 10, some zipEmpty⟩

/-- Archive holding one chapter document. -/
def zipCh : Archive := ⟨[("c1.xhtml", textEntry "<p>hello world</p>")]⟩

/-- Splitter initialized over `zipCh` with the OPF at the root. -/
def stCh : SplitterState := ⟨some zipCh, ""⟩

/-- One level-1 TOC entry pointing at the chapter document. -/
def tocCh : List TocItem := [⟨0, "Chapter One", 1, "c1.xhtml", none⟩]

/-- Archive for the part-aggregation scenario: the part's own document plus
two of the three mapped chapter files (`text/part0007.html` is missing). -/
def zipPart : Archive :=
  ⟨[("intro.html", textEntry "<p>Intro</p>"),
    ("text/part0006.html", textEntry "<p>Two</p>"),
    ("text/part0008.html", textEntry "<p>Four</p>")]⟩

/-- A TOC entry titled with the first part marker. -/
def tPart : TocItem := ⟨0, "第一部分", 1, "intro.html", none⟩

/-- A two-root navigation-point forest with two nested children. -/
def pts3 : List NavPoint :=
  [.mk "A" (some "a.html")
     [.mk "A1" (some "a1.html") [], .mk "A2" none []],
   .mk "B" (some "b.html") []]

/-- Archive holding an EPUB3 navigation document with one entry. -/
def zipNav : Archive :=
  ⟨[("nav.xhtml",
     textEntry "<li><a href=\"c1.xhtml\">Chapter One</a></li>")]⟩

/-- Package document whose manifest flags the navigation document. -/
def opfNav : PackageDoc :=
  ⟨⟨[], []⟩, [⟨"nav", "nav.xhtml", "application/xhtml+xml", "nav"⟩], none⟩

/-- Metadata block with no entries and no meta tags. -/
def mEmpty : OpfMetadata := ⟨[], []⟩

/-- Package document with an empty manifest. -/
def opfEmpty : PackageDoc := ⟨mEmpty, [], none⟩

/-- Image-encoding model that always fails. -/
def encNone : EncodeFn := fun _ _ _ => none

/-- Manifest for the cover path-search scenario: one item with
`properties="cover-image"` and `href="images/c1.jpg"`. -/
def opf8 : PackageDoc :=
  ⟨⟨[], []⟩, [⟨"img1", "images/c1.jpg", "image/jpeg", "cover-image"⟩], none⟩

/-- The cover image entry of the scenario archive. -/
def entry8 : ZipEntry := ⟨"", [1, 2, 3], none, none, none⟩

/-- Scenario archive: the cover exists only under the package directory. -/
def zip8 : Archive := ⟨[("OEBPS/images/c1.jpg", entry8)]⟩

/-- Image-encoding model returning a fixed base64 payload. -/
def enc8 : EncodeFn := fun _ _ _ => some "QUJD"

/-- Manifest with an image that carries no cover declaration at all. -/
def opf5 : PackageDoc :=
  ⟨⟨[("dc:title", .arr [.vstr "T"])], []⟩,
   [⟨"pic", "photo.jpg", "image/jpeg", ""⟩,
    ⟨"c1", "c1.xhtml", "application/xhtml+xml", ""⟩], none⟩

/-- Valid archive for `opf5` (mimetype, container, OPF, the image bytes). -/
def zip5 : Archive :=
  ⟨[("mimetype", textEntry "application/epub+zip"),
    ("META-INF/container.xml", ⟨"", [], some ⟨"content.opf"⟩, none, none⟩),
    ("content.opf", ⟨"", [], none, some opf5, none⟩),
    ("photo.jpg", ⟨"", [7], none, none, none⟩)]⟩

/-- The epub file wrapping `zip5`. -/
def f5 : EpubFile := ⟨true, ".epub", 100, some zip5⟩

/-- Image-encoding model for the `zip5` scenario. -/
def enc5 : EncodeFn := fun _ _ _ => some "QQ=="

/-- Manifest with no image resources and no cover declaration. -/
def opf5b : PackageDoc :=
  ⟨⟨[("dc:title", .arr [.vstr "T"])], []⟩,
   [⟨"c1", "c1.xhtml", "application/xhtml+xml", ""⟩], none⟩

/-- Valid archive for `opf5b`. -/
def zip5b : Archive :=
  ⟨[("mimetype", textEntry "application/epub+zip"),
    ("META-INF/container.xml", ⟨"", [], some ⟨"content.opf"⟩, none, none⟩),
    ("content.opf", ⟨"", [], none, some opf5b, none⟩)]⟩

/-- The epub file wrapping `zip5b`. -/
def f5b : EpubFile := ⟨true, ".epub", 100, some zip5b⟩

/-- The chapter list `splitChapters` produces on `stCh`/`tocCh`. -/
def chConc : List ChapterContent :=
  [⟨0, "Chapter One", "hello world", 2, 1⟩]

/-- The extracted texts of the mapped, readable, non-blank chapter files
of a part range, in chapter-number order. -/
def partRangeTexts (zip : Archive) (r : Nat × Nat) : List String :=
  ((List.range' r.1 (r.2 + 1 - r.1)).filterMap chapterFiles).filterMap
    (fun fp => (zip.file fp).bind (fun en =>
      let tc := ChapterSplitter.extractTextFromHtml en.text
      if strTrim tc ≠ "" then some tc else none))

/-- Concatenation of part texts, each preceded by the blank-line
separator. -/
def joinParts (l : List String) : String :=
  l.foldr (fun s acc => "\n\n" ++ s ++ acc) ""

/-- Length of a `parent_id` chain inside a flat TocItem list: `none` has
chain length 0, and `some i` has length `n + 1` when an item `p` with
`id = i` is in the list and `p`'s own parent chain has length `n`. -/
inductive ParentChain (items : List TocItem) : Option Nat → Nat → Prop
  | root : ParentChain items none 0
  | step (p : TocItem) (n : Nat) : p ∈ items → ParentChain items p.parent_id n →
      ParentChain items (some p.id) (n + 1)

/-! ### Theorems -/

/-- Helper: `jsOr` with a non-empty default is non-empty. -/
theorem jsOr_ne_empty (a b : String) (hb : b ≠ "") : jsOr a b ≠ "" := by
  unfold jsOr
  split
  · exact hb
  · assumption

/-- Helper: `jsOr` on an empty first argument yields the default. -/
theorem jsOr_empty_left (a b : String) (h : a = "") : jsOr a b = b := by
  simp [jsOr, h]

/-- C1 (counterexample): on an initialized splitter, `splitChapters` with an
empty table of contents returns `ok []` instead of failing with a
missing-TOC error. -/
theorem splitChapters_emptyToc_returns_empty :
    ChapterSplitter.splitChapters st0 [] opts0 = .ok [] := rfl

/-- C1 (amended): for every initialized splitter and every options value,
`splitChapters` with an empty table of contents silently returns the empty
chapter list; the missing-TOC rejection is performed by the HTTP route
before the splitter is invoked, not by `splitChapters` itself. -/
theorem splitChapters_emptyToc_ok (z : Archive) (opfDir : String)
    (opts : SplitOptions) :
    ChapterSplitter.splitChapters ⟨some z, opfDir⟩ [] opts = .ok [] := rfl

/-- C10 (counterexample): an `initialize` call that loads the archive but
fails at the container step throws, yet leaves the handle set, so a
subsequent `splitChapters` does not raise the initialization error. -/
theorem splitChapters_partialInit_no_error :
    (ChapterSplitter.initializeSplitter ChapterSplitter.new f10).2 =
      .error "初始化章节拆分器失败" ∧
    ChapterSplitter.splitChapters
      (ChapterSplitter.initializeSplitter ChapterSplitter.new f10).1 [] opts0 =
      .ok [] :=
  ⟨rfl, rfl⟩

/-- C10 (amended): `splitChapters` raises the initialization error exactly
when the internal archive handle is null — on a fresh splitter and after
`dispose`/`cleanup`; an `initialize` that failed after loading the archive
leaves the handle open, so the guard does not fire then. -/
theorem splitChapters_init_guard (st : SplitterState) (toc : List TocItem)
    (opts : SplitOptions) :
    (st.zip = none ↔
      ChapterSplitter.splitChapters st toc opts = .error "章节拆分器未初始化") ∧
    ChapterSplitter.new.zip = none ∧
    (ChapterSplitter.dispose st).zip = none ∧
    (ChapterSplitter.cleanup st).zip = none := by
  refine ⟨⟨fun h => ?_, fun h => ?_⟩, rfl, rfl, rfl⟩
  · rcases st with ⟨z, d⟩
    cases z with
    | none => rfl
    | some z => simp at h
  · rcases st with ⟨z, d⟩
    cases z with
    | none => rfl
    | some z => simp [ChapterSplitter.splitChapters] at h

/-- C10 (witness): the fresh splitter raises the initialization error. -/
theorem splitChapters_init_guard_witness :
    ChapterSplitter.splitChapters ChapterSplitter.new [] opts0 =
      .error "章节拆分器未初始化" :=
  (splitChapters_init_guard ChapterSplitter.new [] opts0).1.mp rfl

/-- C2: whenever the EPUB3 navigation-document tier yields at least one
entry, `extractTableOfContents` returns exactly that tier's result; the
legacy NCX tier (and the later tiers) are never consulted because the
fallback chain short-circuits at the first non-empty tier. -/
theorem extractToc_nav_preferred (cfg : ParseConfig) (zip : Archive)
    (opf : PackageDoc) (opfDir : String) (c : Nat)
    (hcfg : cfg.extractToc = true)
    (hnav : (EPUBParser.extractTocFromNavFile zip opf.manifest opfDir c).1 ≠ []) :
    EPUBParser.extractTableOfContents cfg zip opf opfDir c =
      EPUBParser.extractTocFromNavFile zip opf.manifest opfDir c := by
  have h1 : 0 < (EPUBParser.extractTocFromNavFile zip opf.manifest opfDir c).1.length :=
    List.length_pos.mpr hnav
  simp only [EPUBParser.extractTableOfContents, hcfg]
  simp [h1]

/-- C2 (witness): a concrete archive whose navigation document yields one
entry, on which the resolver returns the navigation tier's result. -/
theorem extractToc_nav_preferred_witness :
    DEFAULT_PARSE_CONFIG.extractToc = true ∧
    (EPUBParser.extractTocFromNavFile zipNav opfNav.manifest "" 0).1 ≠ [] ∧
    EPUBParser.extractTableOfContents DEFAULT_PARSE_CONFIG zipNav opfNav "" 0 =
      EPUBParser.extractTocFromNavFile zipNav opfNav.manifest "" 0 :=
  ⟨rfl, by decide, extractToc_nav_preferred _ _ _ _ _ rfl (by decide)⟩

/-- C6 (counterexample): on a metadata block with no identifier, date or
contributor, `extractBookInfo` falls back to the empty string for isbn,
publication date and translator — not to an "unknown" sentinel. -/
theorem extractBookInfo_empty_fallbacks :
    (EPUBParser.extractBookInfo mEmpty).isbn = "" ∧
    (EPUBParser.extractBookInfo mEmpty).publication_date = "" ∧
    (EPUBParser.extractBookInfo mEmpty).translator = "" :=
  ⟨rfl, rfl, rfl⟩

/-- C6 (amended): `extractBookInfo` always returns a fully populated
record and never throws; title, author and publisher fall back to the
`未知…` sentinels and language to `zh` (all four are always non-empty),
while isbn, publication date and translator fall back to the empty
string. -/
theorem extractBookInfo_defaults (m : OpfMetadata) :
    (EPUBParser.extractBookInfo m).title ≠ "" ∧
    (EPUBParser.extractBookInfo m).author ≠ "" ∧
    (EPUBParser.extractBookInfo m).publisher ≠ "" ∧
    (EPUBParser.extractBookInfo m).language ≠ "" ∧
    (getMetadataValue m "dc:title" = "" →
      (EPUBParser.extractBookInfo m).title = "未知标题") ∧
    (getMetadataValue m "dc:creator" = "" →
      (EPUBParser.extractBookInfo m).author = "未知作者") ∧
    (getMetadataValue m "dc:publisher" = "" →
      (EPUBParser.extractBookInfo m).publisher = "未知出版社") ∧
    (getMetadataValue m "dc:language" = "" →
      (EPUBParser.extractBookInfo m).language = "zh") ∧
    (getMetadataValue m "dc:identifier" = "" →
      (EPUBParser.extractBookInfo m).isbn = "") ∧
    (getMetadataValue m "dc:date" = "" →
      (EPUBParser.extractBookInfo m).publication_date = "") ∧
    (m.entries.lookup "dc:contributor" = none →
      (EPUBParser.extractBookInfo m).translator = "") := by
  refine ⟨jsOr_ne_empty _ _ (by decide), jsOr_ne_empty _ _ (by decide),
    jsOr_ne_empty _ _ (by decide), jsOr_ne_empty _ _ (by decide),
    fun h => jsOr_empty_left _ _ h, fun h => jsOr_empty_left _ _ h,
    fun h => jsOr_empty_left _ _ h, fun h => jsOr_empty_left _ _ h,
    fun h => ?_, fun h => ?_, fun h => ?_⟩
  · simp [EPUBParser.extractBookInfo, jsOr, h]
  · simp [EPUBParser.extractBookInfo, jsOr, h]
  · simp [EPUBParser.extractBookInfo, findTranslator, h]

/-- C6 (witness): the empty metadata block receives the sentinels where
they exist and empty strings elsewhere. -/
theorem extractBookInfo_defaults_witness :
    (EPUBParser.extractBookInfo mEmpty).title = "未知标题" ∧
    (EPUBParser.extractBookInfo mEmpty).language = "zh" ∧
    (EPUBParser.extractBookInfo mEmpty).translator = "" :=
  ⟨(extractBookInfo_defaults mEmpty).2.2.2.2.1 rfl,
   (extractBookInfo_defaults mEmpty).2.2.2.2.2.2.2.1 rfl,
   (extractBookInfo_defaults mEmpty).2.2.2.2.2.2.2.2.2.2 rfl⟩

/-- C4: the cover resolver is total.  When cover extraction is disabled the
result is absent (`none`, modelling `undefined`); when enabled it is
always a present `CoverInfo` that is either an empty image with one of the
descriptive failure statuses or a data-URI image with the success
status. -/
theorem extractCoverInfo_total (cfg : ParseConfig) (enc : EncodeFn)
    (zip : Archive) (opf : PackageDoc) (opfDir : String) :
    (cfg.extractCover = false →
      EPUBParser.extractCoverInfo cfg enc zip opf opfDir = none) ∧
    (cfg.extractCover = true →
      ∃ ci, EPUBParser.extractCoverInfo cfg enc zip opf opfDir = some ci ∧
        ((ci.cover_image = "" ∧
            (ci.cover_alt_text = "无封面图片" ∨
              ci.cover_alt_text = "封面图片文件不存在" ∨
              ci.cover_alt_text = "封面图片数据为空" ∨
              ci.cover_alt_text = "封面提取失败")) ∨
          (∃ s, ci.cover_image = "data:image/jpeg;base64," ++ s ∧
            ci.cover_alt_text = "书籍封面"))) := by
  constructor
  · intro h
    simp [EPUBParser.extractCoverInfo, h]
  · intro h
    unfold EPUBParser.extractCoverInfo
    rw [h]
    simp only [Bool.true_eq_false, if_false]
    by_cases hp : selectCoverPath zip opf opfDir = ""
    · rw [if_pos hp]
      exact ⟨_, rfl, Or.inl ⟨rfl, Or.inl rfl⟩⟩
    · rw [if_neg hp]
      cases hfind : firstFileWithPath zip
          (coverPathsToTry (selectCoverPath zip opf opfDir) opfDir) with
      | none => exact ⟨_, rfl, Or.inl ⟨rfl, Or.inr (Or.inl rfl)⟩⟩
      | some pe =>
        obtain ⟨p1, e1⟩ := pe
        by_cases hby : e1.bytes.isEmpty
        · simp only [hby, if_true]
          exact ⟨_, rfl, Or.inl ⟨rfl, Or.inr (Or.inr (Or.inl rfl))⟩⟩
        · rw [Bool.not_eq_true] at hby
          simp only [hby, Bool.false_eq_true, if_false]
          cases henc : enc e1.bytes cfg.maxCoverSize cfg.imageQuality with
          | none =>
            simp only [henc]
            exact ⟨_, rfl, Or.inl ⟨rfl, Or.inr (Or.inr (Or.inr rfl))⟩⟩
          | some b64 =>
            simp only [henc]
            exact ⟨_, rfl, Or.inr ⟨b64, rfl, rfl⟩⟩

/-- C4 (witness): with extraction enabled on the empty archive, the
resolver returns a present not-found result. -/
theorem extractCoverInfo_total_witness :
    ∃ ci, EPUBParser.extractCoverInfo DEFAULT_PARSE_CONFIG encNone zipEmpty
        opfEmpty "" = some ci ∧
      ((ci.cover_image = "" ∧
          (ci.cover_alt_text = "无封面图片" ∨
            ci.cover_alt_text = "封面图片文件不存在" ∨
            ci.cover_alt_text = "封面图片数据为空" ∨
            ci.cover_alt_text = "封面提取失败")) ∨
        (∃ s, ci.cover_image = "data:image/jpeg;base64," ++ s ∧
          ci.cover_alt_text = "书籍封面")) :=
  (extractCoverInfo_total DEFAULT_PARSE_CONFIG encNone zipEmpty opfEmpty "").2
    rfl

/-- C8: for a manifest item with `properties="cover-image"` and
`href="images/c1.jpg"` under package directory `OEBPS`, the candidate list
starts with `images/c1.jpg` and then `OEBPS/images/c1.jpg`; when only the
latter exists, the path search resolves at the second attempt and the
cover succeeds from that entry. -/
theorem cover_path_search_order :
    coverPathsToTry "images/c1.jpg" "OEBPS" =
      ["images/c1.jpg", "OEBPS/images/c1.jpg", "./images/c1.jpg",
       "OEBPS/images/c1.jpg", "OEBPS/c1.jpg", "content/images/c1.jpg",
       "content/c1.jpg", "images/images/c1.jpg", "images/c1.jpg",
       "img/images/c1.jpg", "img/c1.jpg"] ∧
    selectCoverPath zip8 opf8 "OEBPS" = "images/c1.jpg" ∧
    zip8.file "images/c1.jpg" = none ∧
    zip8.file "OEBPS/images/c1.jpg" = some entry8 ∧
    firstFileWithPath zip8 (coverPathsToTry "images/c1.jpg" "OEBPS") =
      some ("OEBPS/images/c1.jpg", entry8) ∧
    EPUBParser.extractCoverInfo DEFAULT_PARSE_CONFIG enc8 zip8 opf8 "OEBPS" =
      some ⟨"data:image/jpeg;base64,QUJD", "书籍封面"⟩ := by
  refine ⟨?_, rfl, rfl, rfl, rfl, rfl⟩
  decide

/-- Helper: folding the word-count sum over a list adds the mapped sum to
the accumulator. -/
theorem foldl_add_wordCount (l : List StatEntry) (s : Nat) :
    l.foldl (fun a it => a + it.wordCount) s =
      s + (l.map StatEntry.wordCount).sum := by
  induction l generalizing s with
  | nil => simp
  | cons x xs ih => simp [List.foldl_cons, ih]; omega

/-- Helper: mapping a function of the payload over an enumerated list
forgets the indices. -/
theorem map_enumFrom_snd {α β : Type} (g : α → β) :
    ∀ (n : Nat) (l : List α),
      (List.enumFrom n l).map (fun p => g p.2) = l.map g := by
  intro n l
  induction l generalizing n with
  | nil => rfl
  | cons x xs ih => simp [List.enumFrom, ih]

/-- Helper: the payload of an enumerated-list element belongs to the
original list. -/
theorem snd_mem_of_mem_enumFrom {α : Type} :
    ∀ (n : Nat) (l : List α) (p : Nat × α),
      p ∈ List.enumFrom n l → p.2 ∈ l := by
  intro n l
  induction l generalizing n with
  | nil => intro p h; cases h
  | cons x xs ih =>
    intro p h
    cases h with
    | head => exact List.mem_cons_self _ _
    | tail _ h2 => exact List.mem_cons_of_mem _ (ih (n + 1) p h2)

/-- Helper: the word counts of the `wordCounts` entries are the word
counts recomputed from the chapter contents. -/
theorem wcEntries_map_wordCount (chapters : List ChapterContent) :
    (wcEntries chapters).map StatEntry.wordCount =
      chapters.map (fun c => ChapterSplitter.countWords c.content) := by
  unfold wcEntries List.enum
  rw [List.map_map]
  exact map_enumFrom_snd (fun c => ChapterSplitter.countWords c.content) 0
    chapters

/-- Helper: a chapter produced by `extractChapterContent` has its word
count computed from its content. -/
theorem extractChapterContent_wordCount (zip : Archive) (opfDir : String)
    (t : TocItem) (opts : SplitOptions) (x : ChapterContent)
    (h : ChapterSplitter.extractChapterContent zip opfDir t opts = some x) :
    x.wordCount = ChapterSplitter.countWords x.content := by
  unfold ChapterSplitter.extractChapterContent at h
  split at h
  · exact absurd h (by simp)
  · by_cases hp : ChapterSplitter.isPartTitle t.title = true
    · rw [if_pos hp] at h
      cases h
      rfl
    · rw [if_neg hp] at h
      cases hfile : zip.file (partFullPath opfDir t.href) with
      | none =>
        rw [hfile] at h
        exact absurd h (by simp)
      | some e =>
        rw [hfile] at h
        cases h
        rfl

/-- Helper: every chapter returned by `splitChapters` carries a word count
recomputed from its content (truncation happens before counting). -/
theorem splitChapters_wordCount (st : SplitterState) (toc : List TocItem)
    (opts : SplitOptions) (chapters : List ChapterContent)
    (h : ChapterSplitter.splitChapters st toc opts = .ok chapters) :
    ∀ c ∈ chapters, c.wordCount = ChapterSplitter.countWords c.content := by
  unfold ChapterSplitter.splitChapters at h
  cases hz : st.zip with
  | none => rw [hz] at h; exact absurd h (by simp)
  | some z =>
    rw [hz] at h
    injection h with h2
    subst h2
    intro c hc
    rw [List.mem_map] at hc
    obtain ⟨p, hp, rfl⟩ := hc
    have hmem : p.2 ∈ (ChapterSplitter.filterTocByLevel toc opts.level).filterMap
        (fun t => ChapterSplitter.extractChapterContent z st.opfDir t opts) := by
      exact snd_mem_of_mem_enumFrom 0 _ p hp
    rw [List.mem_filterMap] at hmem
    obtain ⟨t, _, hext⟩ := hmem
    exact extractChapterContent_wordCount z st.opfDir t opts p.2 hext

/-- Helper: the fold accumulator never exceeds the first-max fold result. -/
theorem foldl_maxStep_le (ws : List StatEntry) (a : StatEntry) :
    a.wordCount ≤ (ws.foldl maxStep a).wordCount := by
  induction ws generalizing a with
  | nil => exact le_refl _
  | cons it ws ih =>
    refine le_trans ?_ (ih (maxStep a it))
    unfold maxStep
    split
    · omega
    · exact le_refl _

/-- Helper: the first-min fold result never exceeds the accumulator. -/
theorem foldl_minStep_le (ws : List StatEntry) (a : StatEntry) :
    (ws.foldl minStep a).wordCount ≤ a.wordCount := by
  induction ws generalizing a with
  | nil => exact le_refl _
  | cons it ws ih =>
    refine le_trans (ih (minStep a it)) ?_
    unfold minStep
    split
    · omega
    · exact le_refl _

/-- Helper: the `reduce` with strict `>` selects the first maximum — the
元素 before it in `a :: ws` are strictly smaller, the ones after are no
larger. -/
theorem foldl_maxStep_first (ws : List StatEntry) (a : StatEntry) :
    ∃ pre post, a :: ws = pre ++ (ws.foldl maxStep a) :: post ∧
      (∀ x ∈ pre, x.wordCount < (ws.foldl maxStep a).wordCount) ∧
      (∀ x ∈ post, x.wordCount ≤ (ws.foldl maxStep a).wordCount) := by
  induction ws generalizing a with
  | nil => exact ⟨[], [], rfl, by simp, by simp⟩
  | cons it ws ih =>
    rw [List.foldl_cons]
    by_cases hgt : it.wordCount > a.wordCount
    · have hstep : maxStep a it = it := if_pos hgt
      rw [hstep]
      obtain ⟨pre, post, hsplit, hpre, hpost⟩ := ih it
      refine ⟨a :: pre, post, ?_, ?_, hpost⟩
      · rw [List.cons_append, ← hsplit]
      · intro x hx
        cases hx with
        | head =>
          exact lt_of_lt_of_le hgt (foldl_maxStep_le ws it)
        | tail _ hx2 => exact hpre x hx2
    · have hstep : maxStep a it = a := if_neg hgt
      rw [hstep]
      obtain ⟨pre, post, hsplit, hpre, hpost⟩ := ih a
      cases pre with
      | nil =>
        simp only [List.nil_append] at hsplit
        injection hsplit with h1 h2
        refine ⟨[], it :: ws, ?_, by simp, ?_⟩
        · rw [List.nil_append, ← h1]
        · intro x hx
          cases hx with
          | head => rw [← h1]; omega
          | tail _ hx2 => exact hpost x (h2 ▸ hx2)
      | cons y pre1 =>
        rw [List.cons_append] at hsplit
        injection hsplit with h1 h2
        refine ⟨a :: it :: pre1, post, ?_, ?_, hpost⟩
        · rw [List.cons_append, List.cons_append, ← h2]
        · intro x hx
          cases hx with
          | head =>
            have := hpre y (List.mem_cons_self y pre1)
            rw [← h1] at this
            exact this
          | tail _ hx2 =>
            cases hx2 with
            | head =>
              have := hpre y (List.mem_cons_self y pre1)
              rw [← h1] at this
              omega
            | tail _ hx3 =>
              exact hpre x (List.mem_cons_of_mem y hx3)

/-- Helper: the `reduce` with strict `<` selects the first minimum. -/
theorem foldl_minStep_first (ws : List StatEntry) (a : StatEntry) :
    ∃ pre post, a :: ws = pre ++ (ws.foldl minStep a) :: post ∧
      (∀ x ∈ pre, (ws.foldl minStep a).wordCount < x.wordCount) ∧
      (∀ x ∈ post, (ws.foldl minStep a).wordCount ≤ x.wordCount) := by
  induction ws generalizing a with
  | nil => exact ⟨[], [], rfl, by simp, by simp⟩
  | cons it ws ih =>
    rw [List.foldl_cons]
    by_cases hlt : it.wordCount < a.wordCount
    · have hstep : minStep a it = it := if_pos hlt
      rw [hstep]
      obtain ⟨pre, post, hsplit, hpre, hpost⟩ := ih it
      refine ⟨a :: pre, post, ?_, ?_, hpost⟩
      · rw [List.cons_append, ← hsplit]
      · intro x hx
        cases hx with
        | head =>
          exact lt_of_le_of_lt (foldl_minStep_le ws it) hlt
        | tail _ hx2 => exact hpre x hx2
    · have hstep : minStep a it = a := if_neg hlt
      rw [hstep]
      obtain ⟨pre, post, hsplit, hpre, hpost⟩ := ih a
      cases pre with
      | nil =>
        simp only [List.nil_append] at hsplit
        injection hsplit with h1 h2
        refine ⟨[], it :: ws, ?_, by simp, ?_⟩
        · rw [List.nil_append, ← h1]
        · intro x hx
          cases hx with
          | head => rw [← h1]; omega
          | tail _ hx2 => exact hpost x (h2 ▸ hx2)
      | cons y pre1 =>
        rw [List.cons_append] at hsplit
        injection hsplit with h1 h2
        refine ⟨a :: it :: pre1, post, ?_, ?_, hpost⟩
        · rw [List.cons_append, List.cons_append, ← h2]
        · intro x hx
          cases hx with
          | head =>
            have := hpre y (List.mem_cons_self y pre1)
            rw [← h1] at this
            exact this
          | tail _ hx2 =>
            cases hx2 with
            | head =>
              have := hpre y (List.mem_cons_self y pre1)
              rw [← h1] at this
              omega
            | tail _ hx3 =>
              exact hpre x (List.mem_cons_of_mem y hx3)

/-- Helper: shape of `getChapterStats` on a non-empty list. -/
theorem getChapterStats_eq (c0 : ChapterContent) (rest : List ChapterContent) :
    ∃ w0 ws, wcEntries (c0 :: rest) = w0 :: ws ∧
      ChapterSplitter.getChapterStats (c0 :: rest) =
        ⟨(c0 :: rest).length,
         (wcEntries (c0 :: rest)).foldl (fun s it => s + it.wordCount) 0,
         round ((((wcEntries (c0 :: rest)).foldl
             (fun s it => s + it.wordCount) 0 : Nat) : ℚ) /
           ((c0 :: rest).length : ℚ)),
         ws.foldl maxStep w0, ws.foldl minStep w0⟩ :=
  ⟨_, _, rfl, rfl⟩

/-- C7: on every non-empty chapter list produced by `splitChapters`, the
statistics satisfy `totalWords = Σ wordCount`,
`averageWords = round(totalWords / totalChapters)`, and the
longest/shortest chapters are the first entries attaining the maximum /
minimum word count (entries before them are strictly worse, entries after
no better). -/
theorem splitChapters_stats_roundtrip (st : SplitterState)
    (toc : List TocItem) (opts : SplitOptions)
    (chapters : List ChapterContent)
    (h : ChapterSplitter.splitChapters st toc opts = .ok chapters)
    (hne : chapters ≠ []) :
    (ChapterSplitter.getChapterStats chapters).totalWords =
      (chapters.map ChapterContent.wordCount).sum ∧
    (ChapterSplitter.getChapterStats chapters).averageWords =
      round (((chapters.map ChapterContent.wordCount).sum : ℚ) /
        (chapters.length : ℚ)) ∧
    (∃ pre post,
      wcEntries chapters =
        pre ++ (ChapterSplitter.getChapterStats chapters).longestChapter ::
          post ∧
      (∀ x ∈ pre, x.wordCount <
        (ChapterSplitter.getChapterStats chapters).longestChapter.wordCount) ∧
      (∀ x ∈ post, x.wordCount ≤
        (ChapterSplitter.getChapterStats chapters).longestChapter.wordCount)) ∧
    (∃ pre post,
      wcEntries chapters =
        pre ++ (ChapterSplitter.getChapterStats chapters).shortestChapter ::
          post ∧
      (∀ x ∈ pre,
        (ChapterSplitter.getChapterStats chapters).shortestChapter.wordCount <
          x.wordCount) ∧
      (∀ x ∈ post,
        (ChapterSplitter.getChapterStats chapters).shortestChapter.wordCount ≤
          x.wordCount)) := by
  have hinv := splitChapters_wordCount st toc opts chapters h
  have hmap : (wcEntries chapters).map StatEntry.wordCount =
      chapters.map ChapterContent.wordCount := by
    rw [wcEntries_map_wordCount]
    exact List.map_congr_left (fun c hc => (hinv c hc).symm)
  cases chapters with
  | nil => exact absurd rfl hne
  | cons c0 rest =>
    obtain ⟨w0, ws, hwc, hstats⟩ := getChapterStats_eq c0 rest
    have htot : (wcEntries (c0 :: rest)).foldl (fun s it => s + it.wordCount)
        0 = ((c0 :: rest).map ChapterContent.wordCount).sum := by
      rw [foldl_add_wordCount, hmap]
      simp
    refine ⟨?_, ?_, ?_, ?_⟩
    · rw [hstats]
      exact htot
    · rw [hstats]
      show round _ = _
      rw [htot]
    · rw [hstats, hwc]
      exact foldl_maxStep_first ws w0
    · rw [hstats, hwc]
      exact foldl_minStep_first ws w0

/-- C7 (witness): the concrete one-chapter split and its statistics. -/
theorem splitChapters_stats_roundtrip_witness :
    ChapterSplitter.splitChapters stCh tocCh opts0 = .ok chConc ∧
    chConc ≠ [] ∧
    (ChapterSplitter.getChapterStats chConc).totalWords =
      (chConc.map ChapterContent.wordCount).sum ∧
    (ChapterSplitter.getChapterStats chConc).averageWords =
      round (((chConc.map ChapterContent.wordCount).sum : ℚ) /
        (chConc.length : ℚ)) :=
  ⟨rfl, by decide,
   (splitChapters_stats_roundtrip stCh tocCh opts0 chConc rfl (by decide)).1,
   (splitChapters_stats_roundtrip stCh tocCh opts0 chConc rfl
     (by decide)).2.1⟩

/-- Helper: string append is associative. -/
theorem strAppend_assoc : ∀ (a b c : String), a ++ b ++ c = a ++ (b ++ c)
  | ⟨a⟩, ⟨b⟩, ⟨c⟩ => congrArg String.mk (List.append_assoc a b c)

/-- Helper: the empty string is right neutral. -/
theorem strAppend_empty : ∀ (a : String), a ++ "" = a
  | ⟨a⟩ => congrArg String.mk (List.append_nil a)

/-- Helper: a separator-prefixed string is never empty. -/
theorem sep_append_ne_empty (s j : String) : "\n\n" ++ s ++ j ≠ "" := by
  intro h
  have h2 := congrArg String.data h
  rw [String.data_append, String.data_append] at h2
  exact absurd h2 (by simp)

/-- Helper: the range-content fold equals the separator-joined list of the
extracted texts, for any accumulator. -/
theorem rangeContent_foldl (zip : Archive) (l : List Nat) (acc : String) :
    l.foldl (fun content n =>
      match chapterFiles n with
      | none => content
      | some fp =>
        match zip.file fp with
        | none => content
        | some en =>
          let tc := ChapterSplitter.extractTextFromHtml en.text
          if strTrim tc ≠ "" then content ++ "\n\n" ++ tc else content) acc =
    acc ++ joinParts (l.filterMap (fun n => (chapterFiles n).bind
      (fun fp => (zip.file fp).bind (fun en =>
        let tc := ChapterSplitter.extractTextFromHtml en.text
        if strTrim tc ≠ "" then some tc else none)))) := by
  induction l generalizing acc with
  | nil => exact (strAppend_empty acc).symm
  | cons n l ih =>
    rw [List.foldl_cons, List.filterMap_cons]
    cases hcf : chapterFiles n with
    | none => simp only [hcf, Option.none_bind]; exact ih acc
    | some fp =>
      simp only [hcf, Option.some_bind]
      cases hf : zip.file fp with
      | none => simp only [Option.none_bind]; exact ih acc
      | some en =>
        simp only [Option.some_bind]
        by_cases ht : strTrim (ChapterSplitter.extractTextFromHtml en.text) ≠ ""
        · simp only [if_pos ht]
          rw [ih]
          show _ = acc ++ joinParts (_ :: _)
          unfold joinParts
          rw [List.foldr_cons]
          rw [strAppend_assoc (acc ++ "\n\n"), strAppend_assoc acc "\n\n",
            strAppend_assoc "\n\n"]
        · simp only [if_neg ht]
          exact ih acc

/-- Helper: `extractChapterRangeContent` is the separator-joined text list
of the range. -/
theorem extractChapterRangeContent_eq (zip : Archive) (r : Nat × Nat) :
    ChapterSplitter.extractChapterRangeContent zip r =
      joinParts (partRangeTexts zip r) := by
  unfold ChapterSplitter.extractChapterRangeContent partRangeTexts
  rw [List.filterMap_filterMap]
  exact rangeContent_foldl zip (List.range' r.1 (r.2 + 1 - r.1)) ""

/-- C9: for a TOC entry whose title is in the fixed part map and whose own
document is readable, the part content is the entry's own extracted text
followed by the extracted texts of the mapped contiguous chapter files in
chapter-number order, each preceded by the blank-line separator, with
unmapped numbers, missing files and blank texts skipped. -/
theorem extractPartContent_spec (zip : Archive) (opfDir : String)
    (t : TocItem) (r : Nat × Nat) (e : ZipEntry)
    (hr : ChapterSplitter.getChapterRangeForPart t.title = some r)
    (he : zip.file (partFullPath opfDir t.href) = some e) :
    ChapterSplitter.extractPartContent zip opfDir t =
      ChapterSplitter.extractTextFromHtml e.text ++
        (if partRangeTexts zip r = [] then ""
         else "\n\n" ++ joinParts (partRangeTexts zip r)) := by
  unfold ChapterSplitter.extractPartContent
  rw [he, hr]
  show (if ChapterSplitter.extractChapterRangeContent zip r ≠ "" then
      ChapterSplitter.extractTextFromHtml e.text ++ "\n\n" ++
        ChapterSplitter.extractChapterRangeContent zip r
    else ChapterSplitter.extractTextFromHtml e.text) = _
  rw [extractChapterRangeContent_eq]
  cases hts : partRangeTexts zip r with
  | nil =>
    rw [if_pos rfl]
    have : joinParts ([] : List String) = "" := rfl
    rw [this]
    simp only [ne_eq, not_true_eq_false, if_false]
    exact (strAppend_empty _).symm
  | cons s rest =>
    have hne : joinParts (s :: rest) ≠ "" := by
      unfold joinParts
      rw [List.foldr_cons]
      exact sep_append_ne_empty s _
    rw [if_pos hne, if_neg (List.cons_ne_nil s rest)]
    exact strAppend_assoc _ _ _

/-- C9 (witness): the first-part entry over the fixture archive, where
`text/part0007.html` is missing and skipped. -/
theorem extractPartContent_spec_witness :
    ChapterSplitter.getChapterRangeForPart tPart.title = some (2, 4) ∧
    zipPart.file (partFullPath "" tPart.href) =
      some (textEntry "<p>Intro</p>") ∧
    ChapterSplitter.extractPartContent zipPart "" tPart =
      ChapterSplitter.extractTextFromHtml (textEntry "<p>Intro</p>").text ++
        (if partRangeTexts zipPart (2, 4) = [] then ""
         else "\n\n" ++ joinParts (partRangeTexts zipPart (2, 4))) :=
  ⟨rfl, rfl,
   extractPartContent_spec zipPart "" tPart (2, 4)
     (textEntry "<p>Intro</p>") rfl rfl⟩

/-- C5 (counterexample): a valid archive missing only a cover declaration
but containing an ordinary image: `parse` succeeds, yet the fallback
strategy promotes the first image, so the cover image is not empty. -/
theorem parse_missing_cover_decl_nonempty :
    EPUBParser.validate f5 = true ∧
    opf5.metadata.entries.lookup "cover" = none ∧
    opf5.metadata.meta = [] ∧
    (EPUBParser.parse DEFAULT_PARSE_CONFIG enc5 f5).success = true ∧
    (EPUBParser.parse DEFAULT_PARSE_CONFIG enc5 f5).coverInfo =
      some ⟨"data:image/jpeg;base64,QQ==", "书籍封面"⟩ :=
  ⟨rfl, rfl, rfl, rfl, rfl⟩

/-- Helper: the meta-tag cover scan yields nothing when no tag is named
`cover`. -/
theorem findCoverByMeta_empty (manifest : List ManifestItem)
    (metas : List MetaTag) (h : ∀ mt ∈ metas, mt.name ≠ "cover") :
    findCoverByMeta manifest metas = "" := by
  induction metas with
  | nil => rfl
  | cons mt rest ih =>
    unfold findCoverByMeta
    rw [if_neg]
    · exact ih (fun x hx => h x (List.mem_cons_of_mem mt hx))
    · intro hc
      exact h mt (List.mem_cons_self mt rest) hc.1

/-- Helper: with no explicit declaration, no cover-ish name, no
conventional file and no image resource at all, every strategy of the
candidate selection fails. -/
theorem selectCoverPath_empty (zip : Archive) (opf : PackageDoc)
    (opfDir : String)
    (hm1 : opf.metadata.entries.lookup "cover" = none)
    (hm2 : ∀ it ∈ opf.manifest,
      ¬(it.properties = "cover-image" ∨ it.id = "cover-image"))
    (hm3 : ∀ mt ∈ opf.metadata.meta, mt.name ≠ "cover")
    (hm4 : ∀ it ∈ opf.manifest, strStartsWith it.mediaType "image/" = false)
    (hm5 : ∀ nm ∈ coverCommonNames,
      zip.file (if opfDir ≠ "" then opfDir ++ "/" ++ nm else nm) = none) :
    selectCoverPath zip opf opfDir = "" := by
  have h2 : opf.manifest.find?
      (fun it => it.properties = "cover-image" ∨ it.id = "cover-image") =
      none :=
    List.find?_eq_none.mpr (fun x hx => by simpa using hm2 x hx)
  have h3 : findCoverByMeta opf.manifest opf.metadata.meta = "" :=
    findCoverByMeta_empty _ _ hm3
  have h4 : opf.manifest.find? (fun it =>
      strStartsWith it.mediaType "image/" ∧
        (containsSub (strLower it.id) "cover" ∨
          containsSub (strLower it.href) "cover")) = none :=
    List.find?_eq_none.mpr (fun x hx => by simp [hm4 x hx])
  have h5 : coverCommonNames.find? (fun nm =>
      (zip.file (if opfDir ≠ "" then opfDir ++ "/" ++ nm else nm)).isSome) =
      none :=
    List.find?_eq_none.mpr (fun x hx => by rw [hm5 x hx]; simp)
  have h6 : opf.manifest.find?
      (fun it => strStartsWith it.mediaType "image/") = none :=
    List.find?_eq_none.mpr (fun x hx => by simp [hm4 x hx])
  unfold selectCoverPath
  simp only [hm1, h2, h3, h4, h5, h6]
  simp

/-- Helper: when no strategy finds a candidate, the enabled cover resolver
returns the specific not-found result. -/
theorem extractCoverInfo_no_candidate (cfg : ParseConfig) (enc : EncodeFn)
    (zip : Archive) (opf : PackageDoc) (opfDir : String)
    (hcov : cfg.extractCover = true)
    (hsel : selectCoverPath zip opf opfDir = "") :
    EPUBParser.extractCoverInfo cfg enc zip opf opfDir =
      some ⟨"", "无封面图片"⟩ := by
  unfold EPUBParser.extractCoverInfo
  rw [hcov, hsel]
  simp

/-- C5 (amended): for every valid archive that lacks a cover declaration
and in which no fallback strategy can find a candidate (no cover-named
item, no conventional cover file, no image resource), `parse` still
succeeds and the cover result is the empty image with the specific
not-found status `无封面图片`. -/
theorem parse_no_cover_candidate (cfg : ParseConfig) (enc : EncodeFn)
    (f : EpubFile) (z : Archive) (cf oe : ZipEntry) (cd : ContainerDoc)
    (opf : PackageDoc)
    (hv : EPUBParser.validate f = true)
    (hz : f.zip = some z)
    (hcf : z.file "META-INF/container.xml" = some cf)
    (hcd : cf.containerParse = some cd)
    (hoe : z.file cd.fullPath = some oe)
    (hopf : oe.opfParse = some opf)
    (hcov : cfg.extractCover = true)
    (hm1 : opf.metadata.entries.lookup "cover" = none)
    (hm2 : ∀ it ∈ opf.manifest,
      ¬(it.properties = "cover-image" ∨ it.id = "cover-image"))
    (hm3 : ∀ mt ∈ opf.metadata.meta, mt.name ≠ "cover")
    (hm4 : ∀ it ∈ opf.manifest, strStartsWith it.mediaType "image/" = false)
    (hm5 : ∀ nm ∈ coverCommonNames,
      z.file (if pathDirname cd.fullPath ≠ "" then
        pathDirname cd.fullPath ++ "/" ++ nm else nm) = none) :
    (EPUBParser.parse cfg enc f).success = true ∧
    (EPUBParser.parse cfg enc f).coverInfo = some ⟨"", "无封面图片"⟩ := by
  have hcover := extractCoverInfo_no_candidate cfg enc z opf
    (pathDirname cd.fullPath) hcov
    (selectCoverPath_empty z opf (pathDirname cd.fullPath) hm1 hm2 hm3 hm4 hm5)
  unfold EPUBParser.parse
  rw [hv]
  simp only [Bool.true_eq_false, if_false, hz, hcf, hcd, hoe, hopf]
  exact ⟨rfl, hcover⟩

/-- C5 (witness): the declaration-free, image-free fixture archive. -/
theorem parse_no_cover_candidate_witness :
    EPUBParser.validate f5b = true ∧
    (EPUBParser.parse DEFAULT_PARSE_CONFIG enc5 f5b).success = true ∧
    (EPUBParser.parse DEFAULT_PARSE_CONFIG enc5 f5b).coverInfo =
      some ⟨"", "无封面图片"⟩ :=
  ⟨rfl,
   parse_no_cover_candidate DEFAULT_PARSE_CONFIG enc5 f5b zip5b
     ⟨"", [], some ⟨"content.opf"⟩, none, none⟩
     ⟨"", [], none, some opf5b, none⟩ ⟨"content.opf"⟩ opf5b
     rfl rfl rfl rfl rfl rfl rfl rfl (by decide) (by decide) (by decide)
     (by intro nm hnm; fin_cases hnm <;> rfl)⟩

/-- Helper: the NCX walk returns the starting counter plus the number of
emitted items. -/
theorem parseNcxNavMap_counter (pts : List NavPoint) (lvl : Nat)
    (par : Option Nat) (c : Nat) :
    (EPUBParser.parseNcxNavMap pts lvl par c).2 =
      c + (EPUBParser.parseNcxNavMap pts lvl par c).1.length := by
  induction pts, lvl, par, c using EPUBParser.parseNcxNavMap.induct with
  | case1 lvl par c => simp [EPUBParser.parseNcxNavMap]
  | case2 label src children rest level parentId c child ih1 ih2 =>
    have hch : child = EPUBParser.parseNcxNavMap children (level + 1) (some c)
        (c + 1) := rfl
    rw [hch] at ih2
    simp only [EPUBParser.parseNcxNavMap, List.length_cons, List.length_append]
    omega

/-- Helper: ids of the NCX walk output are consecutive from the starting
counter. -/
theorem parseNcxNavMap_ids (pts : List NavPoint) (lvl : Nat)
    (par : Option Nat) (c : Nat) :
    (EPUBParser.parseNcxNavMap pts lvl par c).1.map TocItem.id =
      List.range' c (EPUBParser.parseNcxNavMap pts lvl par c).1.length := by
  induction pts, lvl, par, c using EPUBParser.parseNcxNavMap.induct with
  | case1 lvl par c => simp [EPUBParser.parseNcxNavMap]
  | case2 label src children rest level parentId c child ih1 ih2 =>
    have hch : child = EPUBParser.parseNcxNavMap children (level + 1) (some c)
        (c + 1) := rfl
    rw [hch] at ih2
    have hc2 := parseNcxNavMap_counter children (level + 1) (some c) (c + 1)
    simp only [EPUBParser.parseNcxNavMap, List.map_cons, List.map_append,
      List.length_cons, List.length_append]
    rw [ih1, ih2, hc2, List.range'_append_1, List.range'_succ]
    congr 1
    congr 1
    omega

/-- Helper: every item of the NCX walk output sits at the starting level
or deeper. -/
theorem parseNcxNavMap_level_ge (pts : List NavPoint) (lvl : Nat)
    (par : Option Nat) (c : Nat) :
    ∀ it ∈ (EPUBParser.parseNcxNavMap pts lvl par c).1, lvl ≤ it.level := by
  induction pts, lvl, par, c using EPUBParser.parseNcxNavMap.induct with
  | case1 lvl par c => intro it h; exact absurd h (by simp [EPUBParser.parseNcxNavMap])
  | case2 label src children rest level parentId c child ih1 ih2 =>
    have hch : child = EPUBParser.parseNcxNavMap children (level + 1) (some c)
        (c + 1) := rfl
    rw [hch] at ih2
    intro it h
    simp only [EPUBParser.parseNcxNavMap] at h
    rcases List.mem_cons.mp h with rfl | h2
    · exact Nat.le_refl _
    · rcases List.mem_append.mp h2 with h3 | h4
      · exact Nat.le_of_succ_le (ih1 it h3)
      · exact ih2 it h4

/-- Helper: splitting a concatenation at a distinguished element. -/
theorem append_eq_append_cons {α : Type} (l1 l2 pre post : List α) (x : α)
    (h : l1 ++ l2 = pre ++ x :: post) :
    (∃ post1, l1 = pre ++ x :: post1) ∨
      (∃ pre2, pre = l1 ++ pre2 ∧ l2 = pre2 ++ x :: post) := by
  induction l1 generalizing pre with
  | nil =>
    right
    exact ⟨pre, by simp, by simpa using h⟩
  | cons a l1 ih =>
    cases pre with
    | nil =>
      simp only [List.cons_append, List.nil_append] at h
      injection h with h1 h2
      left
      exact ⟨l1, by rw [h1]; rfl⟩
    | cons b pre2 =>
      simp only [List.cons_append] at h
      injection h with h1 h2
      rcases ih pre2 h2 with ⟨post1, h3⟩ | ⟨pre3, h4, h5⟩
      · left
        exact ⟨post1, by rw [h1, List.cons_append, h3]⟩
      · right
        exact ⟨pre3, by rw [h1, List.cons_append, h4], h5⟩

/-- Helper: each item of the NCX walk output is either a root of the call
(with the call's parent id and level) or is preceded in the flat list by
its parent item, the entries strictly between them being strictly deeper
(the depth-first encoding of the nesting). -/
theorem parseNcxNavMap_parent (pts : List NavPoint) (lvl : Nat)
    (par : Option Nat) (c : Nat) :
    ∀ pre it post,
      (EPUBParser.parseNcxNavMap pts lvl par c).1 = pre ++ it :: post →
      (it.parent_id = par ∧ it.level = lvl) ∨
      ∃ p pre1 mid, pre = pre1 ++ p :: mid ∧ it.parent_id = some p.id ∧
        it.level = p.level + 1 ∧ ∀ x ∈ mid, p.level < x.level := by
  induction pts, lvl, par, c using EPUBParser.parseNcxNavMap.induct with
  | case1 lvl par c =>
    intro pre it post h
    simp only [EPUBParser.parseNcxNavMap] at h
    exact absurd h (by simp)
  | case2 label src children rest level parentId c child ih1 ih2 =>
    have hch : child = EPUBParser.parseNcxNavMap children (level + 1) (some c)
        (c + 1) := rfl
    rw [hch] at ih2
    intro pre it post h
    simp only [EPUBParser.parseNcxNavMap] at h
    cases pre with
    | nil =>
      simp only [List.nil_append] at h
      injection h with h1 h2
      left
      rw [← h1]
      exact ⟨rfl, rfl⟩
    | cons y pre2 =>
      rw [List.cons_append] at h
      injection h with h1 h2
      rcases append_eq_append_cons _ _ pre2 post it h2 with
        ⟨post1, hC⟩ | ⟨pre3, hpre, hR⟩
      · rcases ih1 pre2 it post1 hC with ⟨hpar, hlvl⟩ |
          ⟨p, pre4, mid, hsplit, hpid, hlv, hmid⟩
        · right
          refine ⟨y, [], pre2, by rw [List.nil_append], ?_, ?_, ?_⟩
          · rw [hpar, ← h1]
          · rw [hlvl, ← h1]
          · intro x hx
            have hxc : x ∈ (EPUBParser.parseNcxNavMap children (level + 1)
                (some c) (c + 1)).1 := by
              rw [hC]
              exact List.mem_append_left _ hx
            have := parseNcxNavMap_level_ge children (level + 1) (some c)
              (c + 1) x hxc
            have hy : y.level = level := by rw [← h1]
            rw [hy]
            omega
        · right
          refine ⟨p, y :: pre4, mid, ?_, hpid, hlv, hmid⟩
          rw [hsplit, List.cons_append]
      · rcases ih2 pre3 it post hR with ⟨hpar, hlvl⟩ |
          ⟨p, pre4, mid, hsplit, hpid, hlv, hmid⟩
        · left
          exact ⟨hpar, hlvl⟩
        · right
          refine ⟨p, y :: (EPUBParser.parseNcxNavMap children (level + 1)
              (some c) (c + 1)).1 ++ pre4, mid, ?_, hpid, hlv, hmid⟩
          simp [hpre, hsplit, List.append_assoc]

/-- Helper: bounded-level induction building the parent chain of each item
of a top-level NCX walk. -/
theorem parseNcxNavMap_chain_aux (pts : List NavPoint) (c0 : Nat) (L : Nat) :
    ∀ it ∈ (EPUBParser.parseNcxNavMap pts 1 none c0).1, it.level ≤ L →
      ∃ n, ParentChain (EPUBParser.parseNcxNavMap pts 1 none c0).1
        it.parent_id n ∧ it.level = n + 1 := by
  induction L with
  | zero =>
    intro it hit hle
    have h1 := parseNcxNavMap_level_ge pts 1 none c0 it hit
    exact absurd (Nat.le_trans h1 hle) (by decide)
  | succ L ih =>
    intro it hit hle
    obtain ⟨pre, post, hsplit⟩ := List.append_of_mem hit
    rcases parseNcxNavMap_parent pts 1 none c0 pre it post hsplit with
      ⟨hp, hl⟩ | ⟨p, pre1, mid, hdec, hpid, hlv, _⟩
    · exact ⟨0, by rw [hp]; exact ParentChain.root, hl⟩
    · have hpmem : p ∈ (EPUBParser.parseNcxNavMap pts 1 none c0).1 := by
        rw [hsplit]
        refine List.mem_append_left _ ?_
        rw [hdec]
        exact List.mem_append_right _ (List.mem_cons_self p mid)
      have hplev : p.level ≤ L := by omega
      obtain ⟨n, hchain, hpl⟩ := ih p hpmem hplev
      refine ⟨n + 1, ?_, by omega⟩
      rw [hpid]
      exact ParentChain.step p n hpmem hchain

/-- C3: invariants of the NCX navigation-map walk started at level 1 with
no parent.  The returned counter is the start plus the item count; ids are
consecutive in emission order (so each parent's generated id precedes its
children's); every item is either a root (`parent_id = none`, level 1) or
is preceded in the flat list by its parent item with exactly the strictly
deeper descendants of that parent between them (depth-first order), its
level being the parent's plus one; and every item's level equals its
`parent_id` chain length plus one. -/
theorem parseNcxNavMap_invariants (pts : List NavPoint) (c0 : Nat) :
    (EPUBParser.parseNcxNavMap pts 1 none c0).2 =
      c0 + (EPUBParser.parseNcxNavMap pts 1 none c0).1.length ∧
    (EPUBParser.parseNcxNavMap pts 1 none c0).1.map TocItem.id =
      List.range' c0 (EPUBParser.parseNcxNavMap pts 1 none c0).1.length ∧
    (∀ pre it post,
      (EPUBParser.parseNcxNavMap pts 1 none c0).1 = pre ++ it :: post →
      (it.parent_id = none ∧ it.level = 1) ∨
      ∃ p pre1 mid, pre = pre1 ++ p :: mid ∧ it.parent_id = some p.id ∧
        it.level = p.level + 1 ∧ ∀ x ∈ mid, p.level < x.level) ∧
    (∀ it ∈ (EPUBParser.parseNcxNavMap pts 1 none c0).1,
      ∃ n, ParentChain (EPUBParser.parseNcxNavMap pts 1 none c0).1
        it.parent_id n ∧ it.level = n + 1) :=
  ⟨parseNcxNavMap_counter pts 1 none c0,
   parseNcxNavMap_ids pts 1 none c0,
   parseNcxNavMap_parent pts 1 none c0,
   fun it hit => parseNcxNavMap_chain_aux pts c0 it.level it hit
     (Nat.le_refl _)⟩

/-- C3 (witness): the concrete two-root forest with two nested children,
whose walk emits ids 0–3 depth first with the expected levels and parent
references. -/
theorem parseNcxNavMap_invariants_witness :
    (EPUBParser.parseNcxNavMap pts3 1 none 0).1.map
      (fun it => (it.id, it.level, it.parent_id)) =
      [(0, 1, none), (1, 2, some 0), (2, 2, some 0), (3, 1, none)] ∧
    ((EPUBParser.parseNcxNavMap pts3 1 none 0).2 =
      0 + (EPUBParser.parseNcxNavMap pts3 1 none 0).1.length ∧
    (EPUBParser.parseNcxNavMap pts3 1 none 0).1.map TocItem.id =
      List.range' 0 (EPUBParser.parseNcxNavMap pts3 1 none 0).1.length ∧
    (∀ pre it post,
      (EPUBParser.parseNcxNavMap pts3 1 none 0).1 = pre ++ it :: post →
      (it.parent_id = none ∧ it.level = 1) ∨
      ∃ p pre1 mid, pre = pre1 ++ p :: mid ∧ it.parent_id = some p.id ∧
        it.level = p.level + 1 ∧ ∀ x ∈ mid, p.level < x.level) ∧
    (∀ it ∈ (EPUBParser.parseNcxNavMap pts3 1 none 0).1,
      ∃ n, ParentChain (EPUBParser.parseNcxNavMap pts3 1 none 0).1
        it.parent_id n ∧ it.level = n + 1)) :=
  ⟨by simp [pts3, EPUBParser.parseNcxNavMap],
   parseNcxNavMap_invariants pts3 0⟩
